import Mathlib

/-!
Shallow embedding of the Apache Arrow in-process I/O layer
(cpp/src/arrow/io/file.cc, cpp/src/arrow/io/compressed.cc,
cpp/src/arrow/io/interfaces.cc) together with proofs of the
specification claims about it.

Conventions of the embedding:
* bytes are `Nat` (the C++ code never inspects byte values in the
  functions modelled here, so no `< 256` bound is imposed);
* `int64_t` positions that the code compares against `0` are `Int`;
  sizes and counts that are provably non-negative are `Nat`;
* a C++ `Status` is the inductive `Status` below; `RETURN_NOT_OK`
  becomes explicit propagation;
* mutable objects become explicit state records, every operation
  returning its `Status` together with the successor state;
* the unbounded `while` loops of compressed.cc are written with an
  explicit fuel argument; the corresponding theorems show enough fuel
  makes the artificial out-of-fuel branch unreachable.
-/

namespace ArrowIO

/-- Model of `arrow::Status`: OK, or an error kind with its message.
Only the two kinds produced by the modelled code are included. -/
inductive Status where
  | ok : Status
  | invalid (msg : String) : Status
  | ioError (msg : String) : Status
deriving DecidableEq, Repr

/-- True exactly for the `IOError` kind. -/
def Status.isIOErr : Status → Bool
  | .ioError _ => true
  | _ => false

/-- True exactly for the `Invalid` kind. -/
def Status.isInvalid : Status → Bool
  | .invalid _ => true
  | _ => false

/-! ## OSFile (file.cc lines 59-224)

State of `class OSFile`: descriptor-level fields that the claims are
about.  `contents` stands for the bytes of the underlying file and
`pos` for the kernel file position; `size` is the cached size member.
The descriptor number itself is irrelevant to every claim and omitted. -/

structure OSFile where
  isOpen : Bool
  needSeeking : Bool
  contents : List Nat
  pos : Nat
deriving DecidableEq, Repr

namespace OSFile

/-- `OSFile::CheckClosed` (file.cc 118-123). -/
def checkClosed (f : OSFile) : Status :=
  if f.isOpen then Status.ok else Status.invalid "Invalid operation on closed file"

/-- `OSFile::CheckPositioned` (file.cc 202-209). -/
def checkPositioned (f : OSFile) : Status :=
  if f.needSeeking then
    Status.invalid "Need seeking after ReadAt() before calling implicitly-positioned operation"
  else Status.ok

/-- `OSFile::Close` (file.cc 125-135).  The handle is marked closed
before the descriptor is closed, so the result of the underlying
`FileClose` call (passed in as `sys`, since the OS is outside the
model) is reported but a repeated close is a no-op. -/
def close (f : OSFile) (sys : Status) : Status × OSFile :=
  if f.isOpen then (sys, { f with isOpen := false }) else (Status.ok, f)

/-- `OSFile::Read` (file.cc 137-142): closed check, positioning check,
then `FileRead`, which delivers `min nbytes (size - pos)` bytes from
the current position and advances it. -/
def read (f : OSFile) (nbytes : Nat) : Status × OSFile × List Nat :=
  match f.checkClosed with
  | Status.ok =>
    match f.checkPositioned with
    | Status.ok =>
      let bytes := (f.contents.drop f.pos).take nbytes
      (Status.ok, { f with pos := f.pos + bytes.length }, bytes)
    | e => (e, f, [])
  | e => (e, f, [])

/-- `OSFile::ReadAt` (file.cc 144-151): closed check, then the
`need_seeking_` flag is set unconditionally before `FileReadAt`
(pread) delivers bytes from the given offset. -/
def readAt (f : OSFile) (position nbytes : Nat) : Status × OSFile × List Nat :=
  match f.checkClosed with
  | Status.ok =>
    let f' := { f with needSeeking := true }
    (Status.ok, f', (f.contents.drop position).take nbytes)
  | e => (e, f, [])

/-- `OSFile::Seek` (file.cc 153-163): closed check, negative positions
are `Invalid`, a successful seek clears `need_seeking_`. -/
def seek (f : OSFile) (position : Int) : Status × OSFile :=
  match f.checkClosed with
  | Status.ok =>
    if position < 0 then (Status.invalid "Invalid position", f)
    else (Status.ok, { f with needSeeking := false, pos := position.toNat })
  | e => (e, f)

/-- `OSFile::Tell` (file.cc 165-168). -/
def tell (f : OSFile) : Status × Int :=
  match f.checkClosed with
  | Status.ok => (Status.ok, (f.pos : Int))
  | e => (e, 0)

/-- `OSFile::Write` (file.cc 170-180): closed check, positioning
check, then `FileWrite` at the current position.  A negative length is
impossible for a `List` argument, so the `length < 0` branch of the
source is vacuous here. -/
def write (f : OSFile) (data : List Nat) : Status × OSFile :=
  match f.checkClosed with
  | Status.ok =>
    match f.checkPositioned with
    | Status.ok =>
      let grown := f.contents ++ List.replicate (f.pos - f.contents.length) 0
      (Status.ok,
        { f with
          contents := grown.take f.pos ++ data ++ grown.drop (f.pos + data.length),
          pos := f.pos + data.length })
    | e => (e, f)
  | e => (e, f)

end OSFile

/-! ## ReadableFile::ReadBuffer (file.cc 236-248)

`AllocateResizableBuffer(pool, n)` yields a buffer of logical size `n`
whose allocation is padded to a 64-byte multiple; its memory is
uninitialized, which the model captures by threading the arbitrary
initial allocation contents `junk` through `readBuffer`.  The result
is split into the logical bytes and the slack up to the capacity. -/

/-- Allocation capacity for a request of `n` bytes (64-byte rounded). -/
def allocCap (n : Nat) : Nat := 64 * ((n + 63) / 64)

/-- A resizable buffer: logical contents plus the allocation slack
beyond the logical size, up to the capacity. -/
structure RBuffer where
  bytes : List Nat
  slack : List Nat
deriving DecidableEq, Repr

/-- `ReadableFile::ReadableFileImpl::ReadBuffer` (file.cc 236-248):
allocate `n` bytes, `Read` into them, and when fewer than `n` were
read, shrink to the actual count and `ZeroPadding()` the slack up to
the capacity.  `junk` is the uninitialized allocation contents. -/
def readBuffer (f : OSFile) (n : Nat) (junk : List Nat) : Status × OSFile × RBuffer :=
  let mem := (junk ++ List.replicate (allocCap n) 0).take (allocCap n)
  match OSFile.read f n with
  | (Status.ok, f', data) =>
    let mem' := data ++ mem.drop data.length
    if data.length < n then
      (Status.ok, f',
        { bytes := data, slack := List.replicate (allocCap n - data.length) 0 })
    else
      (Status.ok, f', { bytes := mem'.take n, slack := mem'.drop n })
  | (e, f', _) => (e, f', { bytes := [], slack := [] })

/-! ## MemoryMappedFile (file.cc 389-741)

State of `MemoryMappedFile::MemoryMap`.  `region` is the mapped byte
range (`none` when no mapping exists: zero-sized file, after
`Resize(0)`, or after `Close`); `exports` counts the exported buffer
slices still alive beyond the map's own reference, so
`region_.use_count()` is `1 + exports` when a region exists. -/

structure MemoryMap where
  isOpen : Bool
  writable : Bool
  region : Option (List Nat)
  exports : Nat
  fileSize : Nat
  mapLen : Nat
  offset : Nat
  position : Int
deriving DecidableEq, Repr

namespace MemoryMap

/-- `region_.use_count()`: zero for a null pointer, otherwise one for
the map itself plus one per exported slice. -/
def useCount (m : MemoryMap) : Nat :=
  match m.region with
  | some _ => 1 + m.exports
  | none => 0

/-- `MemoryMappedFile::Tell` (file.cc 647-650): returns the position
with no closed-state check. -/
def mmTell (m : MemoryMap) : Status × Int := (Status.ok, m.position)

/-- `MemoryMappedFile::GetSize` (file.cc 638-641): returns `map_len_`
with no closed-state check. -/
def mmGetSize (m : MemoryMap) : Status × Nat := (Status.ok, m.mapLen)

/-- `MemoryMap::Close` (file.cc 423-432): drops the region reference
and closes the file; a second close is a no-op. -/
def mmClose (m : MemoryMap) : Status × MemoryMap :=
  if m.isOpen then (Status.ok, { m with region := none, isOpen := false })
  else (Status.ok, m)

/-- `MemoryMap::Seek` (file.cc 514-520): negative positions are
`Invalid`, any non-negative position is stored unchecked. -/
def mmSeek (m : MemoryMap) (position : Int) : Status × MemoryMap :=
  if position < 0 then (Status.invalid "position is out of bounds", m)
  else (Status.ok, { m with position := position })

/-- `MemoryMappedFile::ReadAt(position, nbytes, bytes_read, out)`
(file.cc 669-680): the count is clamped to
`max 0 (min nbytes (size - position))` and `memcpy` copies that many
bytes from `data() + position`.  The returned bytes are `none` when
the copied range falls outside the mapped region (for `position < 0`
the source pointer precedes the mapping and the C++ read is
undefined); the count is always the clamped value. -/
def mmReadAt (m : MemoryMap) (position nbytes : Int) :
    Status × Nat × Option (List Nat) :=
  let count := (max 0 (min nbytes ((m.mapLen : Int) - position))).toNat
  if count = 0 then (Status.ok, 0, some [])
  else if 0 ≤ position then
    (Status.ok, count, some (((m.region.getD []).drop position.toNat).take count))
  else (Status.ok, count, none)

/-- `MemoryMappedFile::Read(nbytes, bytes_read, out)` (file.cc
682-686): `ReadAt` from the current position, then advance by the
bytes read. -/
def mmRead (m : MemoryMap) (nbytes : Int) :
    Status × MemoryMap × Nat × Option (List Nat) :=
  match mmReadAt m m.position nbytes with
  | (Status.ok, count, data) =>
    (Status.ok, { m with position := m.position + count }, count, data)
  | (e, count, data) => (e, m, count, data)

/-- `memcpy` into the region at `position_` followed by `advance`
(`MemoryMappedFile::WriteInternal`, file.cc 727-731). -/
def mmWriteInternal (m : MemoryMap) (data : List Nat) : Status × MemoryMap :=
  let p := m.position.toNat
  let reg := m.region.getD []
  (Status.ok,
    { m with
      region := some (reg.take p ++ data ++ reg.drop (p + data.length)),
      position := m.position + data.length })

/-- `MemoryMappedFile::WriteAt` (file.cc 696-712): `IOError` when the
map is closed or read-only, `Invalid` when the write would pass the
mapped size, then `Seek` (which rejects a negative position) and the
redundant re-check before the actual copy. -/
def mmWriteAt (m : MemoryMap) (position : Int) (data : List Nat) : Status × MemoryMap :=
  if ¬(m.isOpen ∧ m.writable) then (Status.ioError "Unable to write", m)
  else if (m.mapLen : Int) < position + data.length then
    (Status.invalid "Cannot write past end of memory map", m)
  else
    match mmSeek m position with
    | (Status.ok, m1) =>
      if (m1.mapLen : Int) < (data.length : Int) + m1.position then
        (Status.invalid "Cannot write past end of memory map", m1)
      else mmWriteInternal m1 data
    | (e, m1) => (e, m1)

/-- `MemoryMappedFile::Write` (file.cc 714-725): like `WriteAt` but at
the current position, with no seek. -/
def mmWrite (m : MemoryMap) (data : List Nat) : Status × MemoryMap :=
  if ¬(m.isOpen ∧ m.writable) then (Status.ioError "Unable to write", m)
  else if (m.mapLen : Int) < (data.length : Int) + m.position then
    (Status.invalid "Cannot write past end of memory map", m)
  else mmWriteInternal m data

/-- `MemoryMap::Resize` (file.cc 468-512).  The three guarded
preconditions fail with `IOError` before anything is mutated; then
`new_size = 0` unmaps and truncates, a live mapping is remapped in
place (file bytes preserved, growth zero-filled by the kernel), and a
missing mapping is created over the truncated file (`InitMMap` with
`resize_file = true`, so the bytes are the zero-filled new file). -/
def mmResize (m : MemoryMap) (newSize : Nat) : Status × MemoryMap :=
  if ¬m.writable then (Status.ioError "Cannot resize a readonly memory map", m)
  else if m.mapLen ≠ m.fileSize then (Status.ioError "Cannot resize a partial memory map", m)
  else if 1 < m.useCount then
    (Status.ioError "Cannot resize memory map while there are active readers", m)
  else if newSize = 0 then
    if 0 < m.mapLen then
      (Status.ok,
        { m with region := none, mapLen := 0, offset := 0, fileSize := 0, position := 0 })
    else (Status.ok, { m with position := 0 })
  else if 0 < m.mapLen then
    let reg := m.region.getD []
    let reg' := reg.take newSize ++ List.replicate (newSize - reg.length) 0
    (Status.ok,
      { m with
        region := some reg', mapLen := newSize, fileSize := newSize, offset := 0,
        position := if newSize < m.position then (newSize : Int) else m.position })
  else
    (Status.ok,
      { m with region := some (List.replicate newSize 0),
               mapLen := newSize, fileSize := newSize, offset := 0 })

end MemoryMap

/-! ## Codec model

Modelled from the spec: the codec contract of §6 (`Compress`,
`Decompress`, `Flush`, `End`, `IsFinished`, `Reset`) is an external
collaborator (`arrow/util/compression.h`, not part of the excerpted
sources), so a concrete streaming codec satisfying that contract is
modelled here: `Compress` encodes each input byte `b` as the pair
`[0, b]`, `End` emits the frame marker `[1]`, and `Decompress` inverts
this, reporting `IsFinished` once it has consumed a marker and
refusing further input until `Reset`.  It consumes input
incrementally, holds a half-consumed pair in its state across calls,
and reports `need_more_output` when output space runs out. -/

/-- `kChunkSize` (compressed.cc 193 and 416): 64 KB. -/
def kChunkSize : Nat := 64 * 1024

/-- `kDecompressSize` (compressed.cc 418): 1 MB. -/
def kDecompressSize : Nat := 1024 * 1024

/-- Byte-stuffing of a payload: each byte becomes the pair `[0, b]`. -/
def stuff (l : List Nat) : List Nat := l.flatMap (fun b => [0, b])

/-- One full compression frame: stuffed payload plus the end marker. -/
def encodeFrame (l : List Nat) : List Nat := stuff l ++ [1]

/-- Concatenation of independently compressed frames. -/
def encodeFrames (frames : List (List Nat)) : List Nat :=
  (frames.map encodeFrame).flatten

/-- Modelled from the spec: `Compressor::Compress(input_len, input,
output_cap, output) -> bytes_read, bytes_written` for the byte-stuffing
codec: consume as many input bytes as have room for their two-byte
encodings. -/
def modelCompress (input : List Nat) (outCap : Nat) : Nat × List Nat :=
  let r := min input.length (outCap / 2)
  (r, stuff (input.take r))

/-- Modelled from the spec: `Compressor::End(output_cap) ->
bytes_written, should_retry`: the frame marker needs one byte of room,
otherwise ask for a larger buffer. -/
def modelEnd (outCap : Nat) : List Nat × Bool :=
  if 1 ≤ outCap then ([1], false) else ([], true)

/-- Decompressor state: `finished` is `IsFinished()` (a frame marker
was consumed), `pending` records a consumed `0` tag whose data byte
has not arrived yet. -/
structure Decomp where
  finished : Bool
  pending : Bool
deriving DecidableEq, Repr

/-- Freshly constructed (or `Reset`) decompressor. -/
def Decomp.init : Decomp := ⟨false, false⟩

/-- Result of one `Decompressor::Decompress` call: status, successor
state, bytes consumed, bytes produced, `need_more_output`. -/
structure DecompRes where
  stat : Status
  d : Decomp
  consumed : Nat
  out : List Nat
  needMore : Bool
deriving DecidableEq, Repr

/-- Modelled from the spec: the inner loop of
`Decompressor::Decompress` for the byte-stuffing codec; `capLeft` is
the remaining output room. -/
def decompGo (d : Decomp) (input : List Nat) (capLeft : Nat) : DecompRes :=
  if d.finished then ⟨Status.ok, d, 0, [], false⟩
  else
    match input with
    | [] => ⟨Status.ok, d, 0, [], false⟩
    | b :: rest =>
      if d.pending then
        match capLeft with
        | 0 => ⟨Status.ok, d, 0, [], true⟩
        | capLeft' + 1 =>
          let p := decompGo ⟨false, false⟩ rest capLeft'
          ⟨p.stat, p.d, p.consumed + 1, b :: p.out, p.needMore⟩
      else if b = 1 then ⟨Status.ok, ⟨true, false⟩, 1, [], false⟩
      else if b = 0 then
        let p := decompGo ⟨false, true⟩ rest capLeft
        ⟨p.stat, p.d, p.consumed + 1, p.out, p.needMore⟩
      else ⟨Status.ioError "Invalid compressed data", d, 0, [], false⟩

/-! ## CompressedOutputStream (compressed.cc 45-205)

`compressed_` is modelled as the pair of its filled prefix `buf`
(up to `compressed_pos_`) and its allocated size `cap`
(`compressed_->size()`); `rawOut` is everything written to the raw
stream so far. -/

structure COutput where
  rawOut : List Nat
  isOpen : Bool
  buf : List Nat
  cap : Nat
  totalPos : Nat
deriving DecidableEq, Repr

/-- State after `Init` (compressed.cc 50-56). -/
def initOut : COutput :=
  { rawOut := [], isOpen := true, buf := [], cap := kChunkSize, totalPos := 0 }

/-- `CompressedOutputStream::Impl::FlushCompressed` (compressed.cc
66-72): write the filled prefix to the raw stream and reset the
cursor. -/
def flushCompressed (st : COutput) : COutput :=
  if 0 < st.buf.length then { st with rawOut := st.rawOut ++ st.buf, buf := [] }
  else st

/-- First half of one iteration of the
`CompressedOutputStream::Impl::Write` loop (compressed.cc 79-97):
compress into the remaining room; when nothing was consumed and bytes
are buffered, flush and retry once.  Returns the bytes consumed and
the state after the compress calls. -/
def writeStepHead (cf : List Nat → Nat → Nat × List Nat) (st : COutput)
    (input : List Nat) : Nat × COutput :=
  let p1 := cf input (st.cap - st.buf.length)
  let st1 : COutput := { st with buf := st.buf ++ p1.2 }
  if p1.1 = 0 ∧ 0 < st1.buf.length then
    let stf := flushCompressed st1
    let q := cf input (stf.cap - stf.buf.length)
    (q.1, { stf with buf := stf.buf ++ q.2 })
  else (p1.1, st1)

/-- Second half of the iteration (compressed.cc 98-108): account the
consumed bytes, flush a full buffer, and double the buffer when still
nothing was consumed. -/
def writeStepTail (p : Nat × COutput) : Nat × COutput :=
  let st3 : COutput := { p.2 with totalPos := p.2.totalPos + p.1 }
  let st4 : COutput := if st3.buf.length = st3.cap then flushCompressed st3 else st3
  (p.1, if p.1 = 0 then { st4 with cap := st4.cap * 2 } else st4)

/-- One full iteration of the `Write` loop (compressed.cc 78-109),
generic in the compressor call `cf`. -/
def writeStep (cf : List Nat → Nat → Nat × List Nat) (st : COutput)
    (input : List Nat) : Nat × COutput :=
  writeStepTail (writeStepHead cf st input)

/-- The `while (nbytes > 0)` loop of `Write` (compressed.cc 78-109),
with fuel bounding the number of iterations. -/
def writeLoop (cf : List Nat → Nat → Nat × List Nat) :
    COutput → List Nat → Nat → Status × COutput
  | st, input, fuel =>
    if input.isEmpty then (Status.ok, st)
    else
      match fuel with
      | 0 => (Status.ioError "write loop made no progress", st)
      | fuel + 1 =>
        let p := writeStep cf st input
        writeLoop cf p.2 (input.drop p.1) fuel

/-- `CompressedOutputStream::Impl::Write` for the model codec: with
the model compressor every iteration consumes at least one byte
(proved below), so `input.length` iterations always suffice. -/
def cwrite (st : COutput) (input : List Nat) : Status × COutput :=
  writeLoop modelCompress st input input.length

/-- `CompressedOutputStream::Impl::FinalizeCompression` (compressed.cc
139-161): ask the compressor to end the stream, flush, and grow the
buffer as long as the codec asks for room. -/
def finalizeLoop : COutput → Nat → Status × COutput
  | st, fuel =>
    let p := modelEnd (st.cap - st.buf.length)
    let st1 := flushCompressed { st with buf := st.buf ++ p.1 }
    if p.2 then
      match fuel with
      | 0 => (Status.ioError "finalize loop made no progress", st1)
      | fuel + 1 => finalizeLoop { st1 with cap := st1.cap * 2 } fuel
    else (Status.ok, st1)

/-- `CompressedOutputStream::Impl::Close` (compressed.cc 163-173):
mark closed, finalize the compression, close the raw stream; closing
an already-closed stream is a no-op. -/
def closeOut (st : COutput) : Status × COutput :=
  if st.isOpen then finalizeLoop { st with isOpen := false } (st.cap + 2)
  else (Status.ok, st)

/-- A sequence of `Write` calls against one stream, aborting at the
first error as callers of a `Status` API do. -/
def writeAll (parts : List (List Nat)) : Status × COutput :=
  parts.foldl
    (fun acc p =>
      match acc with
      | (Status.ok, st) => cwrite st p
      | other => other)
    (Status.ok, initOut)

/-! ## CompressedInputStream (compressed.cc 247-434) -/

structure CInput where
  raw : List Nat
  isOpen : Bool
  decomp : Decomp
  compressed : Option (List Nat)
  compressedPos : Nat
  decompressed : Option (List Nat)
  decompressedPos : Nat
  fresh : Bool
  totalPos : Nat
deriving DecidableEq, Repr

/-- State after `Make`/`Init` (compressed.cc 249-261) over a raw
stream holding `raw`. -/
def initIn (raw : List Nat) : CInput :=
  { raw := raw, isOpen := true, decomp := Decomp.init, compressed := none,
    compressedPos := 0, decompressed := none, decompressedPos := 0,
    fresh := true, totalPos := 0 }

/-- `compressed_ ? compressed_->size() - compressed_pos_ : 0`. -/
def compressedAvail (st : CInput) : Nat :=
  match st.compressed with
  | some c => c.length - st.compressedPos
  | none => 0

/-- `decompressed_ ? decompressed_->size() - decompressed_pos_ : 0`. -/
def decompressedAvail (st : CInput) : Nat :=
  match st.decompressed with
  | some d => d.length - st.decompressedPos
  | none => 0

/-- `CompressedInputStream::Impl::EnsureCompressedData` (compressed.cc
289-297): when the compressed buffer is exhausted, read a fresh chunk
of up to 64 KB from the raw stream. -/
def ensureCompressedData (st : CInput) : CInput :=
  if compressedAvail st = 0 then
    { st with compressed := some (st.raw.take kChunkSize),
              raw := st.raw.drop kChunkSize, compressedPos := 0 }
  else st

/-- `CompressedInputStream::Impl::DecompressData` (compressed.cc
301-331): decompress from the compressed cursor into a fresh output
buffer, doubling the output size while the codec reports it produced
nothing but needs more room.  The decompressor state advances across
retries exactly as in the source (`compressed_pos_ += bytes_read`). -/
def decompressDataAux (st : CInput) (sz : Nat) : Nat → Status × CInput
  | 0 => (Status.ioError "decompress buffer growth loop exhausted", st)
  | fuel + 1 =>
    let input := (st.compressed.getD []).drop st.compressedPos
    let p := decompGo st.decomp input sz
    match p.stat with
    | Status.ok =>
      let st1 := { st with compressedPos := st.compressedPos + p.consumed,
                           decomp := p.d,
                           fresh := if 0 < p.consumed then false else st.fresh }
      if 0 < p.out.length ∨ p.needMore = false ∨ input.length = 0 then
        (Status.ok, { st1 with decompressed := some p.out, decompressedPos := 0 })
      else decompressDataAux st1 (sz * 2) fuel
    | e => (e, st)

/-- `DecompressData` entered with the 1 MB initial output size; the
growth loop is given ample fuel (64 doublings) and is proved to exit
immediately for every reachable state. -/
def decompressData (st : CInput) : Status × CInput :=
  decompressDataAux st kDecompressSize 64

/-- `CompressedInputStream::Impl::ReadFromDecompressed` (compressed.cc
334-349): serve bytes out of the decompressed buffer, releasing it
once exhausted. -/
def readFromDecompressed (st : CInput) (want : Nat) : CInput × List Nat :=
  match st.decompressed with
  | none => (st, [])
  | some d =>
    let n := min (d.length - st.decompressedPos) want
    if 0 < n then
      let out := (d.drop st.decompressedPos).take n
      if st.decompressedPos + n = d.length then
        ({ st with decompressed := none, decompressedPos := st.decompressedPos + n }, out)
      else ({ st with decompressedPos := st.decompressedPos + n }, out)
    else (st, [])

/-- Second half of `RefillDecompressed` (compressed.cc 362-376): when
the decompressor yielded nothing, pull a fresh raw chunk; an exhausted
raw stream is a clean end for a fresh decompressor and a truncation
error otherwise. -/
def refillTail (st1 : CInput) : Status × CInput × Bool :=
  let emptyD : Bool :=
    match st1.decompressed with
    | none => true
    | some d => d.length = 0
  if emptyD then
    let st2 := ensureCompressedData st1
    if st2.compressedPos = (st2.compressed.getD []).length then
      if st2.fresh then (Status.ok, st2, false)
      else (Status.ioError "Truncated compressed stream", st2, false)
    else
      match decompressData st2 with
      | (Status.ok, st3) => (Status.ok, st3, true)
      | (e, st3) => (e, st3, false)
  else (Status.ok, st1, true)

/-- `CompressedInputStream::Impl::RefillDecompressed` (compressed.cc
352-377): decompress buffered input first (resetting a finished
decompressor so a following frame is decoded transparently), then fall
through to `refillTail`. -/
def refill (st : CInput) : Status × CInput × Bool :=
  match (if st.compressed.isSome then
           decompressData
             (if st.decomp.finished then { st with decomp := Decomp.init, fresh := true }
              else st)
         else (Status.ok, st)) with
  | (Status.ok, st1) => refillTail st1
  | (e, st1) => (e, st1, false)

/-- The loop of `CompressedInputStream::Impl::Read` (compressed.cc
379-400), accumulating delivered bytes, with fuel bounding the number
of refills. -/
def readLoop : CInput → Nat → List Nat → Nat → Status × CInput × List Nat
  | st, want, acc, fuel =>
    let p := readFromDecompressed st want
    let acc1 := acc ++ p.2
    let want1 := want - p.2.length
    if want1 = 0 then (Status.ok, p.1, acc1)
    else
      match fuel with
      | 0 => (Status.ioError "read loop fuel exhausted", p.1, acc1)
      | fuel + 1 =>
        match refill p.1 with
        | (Status.ok, st2, true) => readLoop st2 want1 acc1 fuel
        | (Status.ok, st2, false) => (Status.ok, st2, acc1)
        | (e, st2, _) => (e, st2, acc1)

/-- Fuel that always suffices for `readLoop` (proved below): every
iteration either delivers a byte or makes progress on the raw or
compressed bytes or the finished flag. -/
def creadFuel (st : CInput) (want : Nat) : Nat :=
  want + 2 * (st.raw.length + compressedAvail st) + 4

/-- `CompressedInputStream::Impl::Read(nbytes, bytes_read, out)`
(compressed.cc 379-400): run the loop, then account the delivered
bytes in `total_pos_`. -/
def cread (st : CInput) (nbytes : Nat) : Status × CInput × List Nat :=
  match readLoop st nbytes [] (creadFuel st nbytes) with
  | (Status.ok, st1, out) =>
    (Status.ok, { st1 with totalPos := st1.totalPos + out.length }, out)
  | (e, st1, out) => (e, st1, out)

/-- `CompressedInputStream::Impl::Close` (compressed.cc 263-270). -/
def closeIn (st : CInput) : Status × CInput :=
  if st.isOpen then (Status.ok, { st with isOpen := false })
  else (Status.ok, st)

/-- End-to-end composition for the round-trip law: write the parts
through a `CompressedOutputStream`, `Close` it (finalizing the
compressor), and read `nbytes` back through a `CompressedInputStream`
over the raw bytes it produced. -/
def compressRoundTrip (parts : List (List Nat)) (nbytes : Nat) : Status × List Nat :=
  match writeAll parts with
  | (Status.ok, st) =>
    match closeOut st with
    | (Status.ok, st1) =>
      match cread (initIn st1.rawOut) nbytes with
      | (s, _, out) => (s, out)
    | (e, _) => (e, [])
  | (e, _) => (e, [])

/-! ## Concrete sample states used by witnesses and counterexamples -/

/-- An open three-byte readable file at position zero. -/
def fileSample : OSFile :=
  { isOpen := true, needSeeking := false, contents := [10, 11, 12], pos := 0 }

/-- `fileSample` after a `ReadAt` left the position indeterminate. -/
def fileSamplePositioned : OSFile :=
  { isOpen := true, needSeeking := true, contents := [10, 11, 12], pos := 0 }

/-- `fileSample` after `Close`. -/
def fileSampleClosed : OSFile :=
  { isOpen := false, needSeeking := false, contents := [10, 11, 12], pos := 0 }

/-- A closed memory map whose cursor was left at 5. -/
def mmClosedSample : MemoryMap :=
  { isOpen := false, writable := true, region := none, exports := 0,
    fileSize := 3, mapLen := 3, offset := 0, position := 5 }

/-- An open read-only one-byte memory map. -/
def mmTinySample : MemoryMap :=
  { isOpen := true, writable := false, region := some [7], exports := 0,
    fileSize := 1, mapLen := 1, offset := 0, position := 0 }

/-- An open writable four-byte memory map with one exported slice. -/
def mmWritableSample : MemoryMap :=
  { isOpen := true, writable := true, region := some [1, 2, 3, 4], exports := 1,
    fileSize := 4, mapLen := 4, offset := 0, position := 0 }

/-! ## Verification-side definitions for the compressed-stream proofs -/

/-- The undelivered bytes of the decompressed buffer. -/
def davail (st : CInput) : List Nat :=
  match st.decompressed with
  | some d => d.drop st.decompressedPos
  | none => []

/-- The unconsumed bytes of the compressed buffer. -/
def cavail (st : CInput) : List Nat :=
  (st.compressed.getD []).drop st.compressedPos

/-- Termination measure for the read loop: raw and buffered
compressed bytes dominate, the finished flag pays for the
reset-and-retry iteration. -/
def Phi (st : CInput) : Nat :=
  2 * (st.raw.length + (cavail st).length) + (if st.decomp.finished then 1 else 0)

/-- All frames of a frame list are nonempty.  (A frame whose marker is
already buffered while the raw stream is exhausted would trip the
truncation check, so empty interior frames are excluded from the
invariant; the single-frame and empty-stream cases are handled
separately.) -/
def NEF (fs : List (List Nat)) : Prop := ∀ f ∈ fs, f ≠ []

/-- Decoder-state/stream/payload relation: what remains of the encoded
stream `e` decodes to exactly the payload `q` from decompressor state
`d`. -/
def Shape (d : Decomp) (e q : List Nat) : Prop :=
  (d = Decomp.init ∧ e = [] ∧ q = []) ∨
  (d = Decomp.init ∧ ∃ r fs, NEF fs ∧
    e = stuff r ++ 1 :: encodeFrames fs ∧ q = r ++ fs.flatten) ∨
  (d = ⟨false, true⟩ ∧ ∃ b r fs, NEF fs ∧
    e = b :: (stuff r ++ 1 :: encodeFrames fs) ∧ q = b :: (r ++ fs.flatten)) ∨
  (d = ⟨true, false⟩ ∧ ∃ fs, NEF fs ∧ e = encodeFrames fs ∧ q = fs.flatten)

/-- Well-formedness of the decompressed cursor: the buffer is absent,
or not yet drained, or the empty buffer at cursor zero. -/
def DOK (st : CInput) : Prop :=
  st.decompressed = none ∨
  ∃ dd, st.decompressed = some dd ∧
    (st.decompressedPos < dd.length ∨ (dd = [] ∧ st.decompressedPos = 0))

/-- The reachable-state invariant of `CompressedInputStream` relative
to the payload `rest` still to be delivered. -/
def Inv (st : CInput) (rest : List Nat) : Prop :=
  ∃ q, rest = davail st ++ q ∧
    Shape st.decomp (cavail st ++ st.raw) q ∧
    (cavail st).length ≤ kChunkSize ∧
    (cavail st ≠ [] → st.decomp.finished = true) ∧
    (st.decomp.finished = true → st.compressed.isSome = true) ∧
    (st.decomp = Decomp.init → cavail st ++ st.raw = [] → st.fresh = true) ∧
    DOK st

/-! ## Theorems -/

/-- C5: on an open OS file handle, `ReadAt` sets the needs-seeking
flag; while the flag is set every implicitly-positioned `Read` or
`Write` fails with `Invalid`; a failed (negative) `Seek` leaves the
flag, a successful `Seek` clears it, and with the flag clear `Read`
and `Write` succeed again. -/
theorem osfile_readAt_forces_seek (f : OSFile) (p n : Nat) (data : List Nat) :
    (f.isOpen = true → (OSFile.readAt f p n).2.1.needSeeking = true) ∧
    (f.isOpen = true → f.needSeeking = true →
      (OSFile.read f n).1 =
        Status.invalid
          "Need seeking after ReadAt() before calling implicitly-positioned operation" ∧
      (OSFile.write f data).1 =
        Status.invalid
          "Need seeking after ReadAt() before calling implicitly-positioned operation") ∧
    (f.isOpen = true → ∀ q : Int, q < 0 → (OSFile.seek f q).2.needSeeking = f.needSeeking) ∧
    (f.isOpen = true → ∀ q : Int, 0 ≤ q →
      (OSFile.seek f q).1 = Status.ok ∧ (OSFile.seek f q).2.needSeeking = false) ∧
    (f.isOpen = true → f.needSeeking = false →
      (OSFile.read f n).1 = Status.ok ∧ (OSFile.write f data).1 = Status.ok) := by
  refine ⟨?_, ?_, ?_, ?_, ?_⟩
  · intro ho
    simp [OSFile.readAt, OSFile.checkClosed, ho]
  · intro ho hs
    simp [OSFile.read, OSFile.write, OSFile.checkClosed, OSFile.checkPositioned, ho, hs]
  · intro ho q hq
    simp [OSFile.seek, OSFile.checkClosed, ho, hq, not_le.2 hq]
  · intro ho q hq
    simp [OSFile.seek, OSFile.checkClosed, ho, not_lt.2 hq]
  · intro ho hs
    simp [OSFile.read, OSFile.write, OSFile.checkClosed, OSFile.checkPositioned, ho, hs]

/-- C5 witness: the positioning discipline evaluated on concrete
states. -/
theorem osfile_readAt_forces_seek_witness :
    (OSFile.readAt fileSample 0 2).2.1.needSeeking = true ∧
    (OSFile.read fileSamplePositioned 2).1 =
      Status.invalid
        "Need seeking after ReadAt() before calling implicitly-positioned operation" ∧
    (OSFile.seek fileSamplePositioned 1).2.needSeeking = false ∧
    (OSFile.read fileSample 2).1 = Status.ok :=
  ⟨(osfile_readAt_forces_seek fileSample 0 2 []).1 rfl,
   ((osfile_readAt_forces_seek fileSamplePositioned 0 2 []).2.1 rfl rfl).1,
   ((osfile_readAt_forces_seek fileSamplePositioned 0 2 []).2.2.2.1 rfl 1 (by decide)).2,
   ((osfile_readAt_forces_seek fileSample 0 2 []).2.2.2.2 rfl rfl).1⟩

/-- C3 counterexample: the claim says every non-`Close` operation on a
closed stream fails, but `MemoryMappedFile::Tell` (file.cc 647-650)
performs no closed-state check: on a concrete closed memory map it
returns `OK` with the stale cursor. -/
theorem mmap_tell_on_closed_succeeds :
    mmClosedSample.isOpen = false ∧
    MemoryMap.mmTell mmClosedSample = (Status.ok, 5) := by
  constructor
  · rfl
  · rfl

/-- C3 (amended): for the OS-file-backed streams every `Read`,
`ReadAt`, `Seek`, `Tell` and `Write` after close fails with the
invalid-operation-on-closed-file error and leaves the handle
unchanged; `Close` is idempotent for every stream type of the layer
and the OS handle is marked closed even when closing the descriptor
fails, so a repeated `Close` succeeds as a no-op; the memory-mapped
file's `Tell`, however, performs no closed check and succeeds on a
closed handle. -/
theorem closed_stream_discipline (f : OSFile) (p n : Nat) (data : List Nat)
    (sys : Status) (m : MemoryMap) (co : COutput) (ci : CInput) :
    (f.isOpen = false →
      OSFile.read f n = (Status.invalid "Invalid operation on closed file", f, []) ∧
      OSFile.readAt f p n = (Status.invalid "Invalid operation on closed file", f, []) ∧
      (∀ q : Int, OSFile.seek f q = (Status.invalid "Invalid operation on closed file", f)) ∧
      OSFile.tell f = (Status.invalid "Invalid operation on closed file", 0) ∧
      OSFile.write f data = (Status.invalid "Invalid operation on closed file", f) ∧
      OSFile.close f sys = (Status.ok, f)) ∧
    ((OSFile.close f sys).2.isOpen = false) ∧
    (m.isOpen = false → MemoryMap.mmClose m = (Status.ok, m)) ∧
    (co.isOpen = false → closeOut co = (Status.ok, co)) ∧
    (ci.isOpen = false → closeIn ci = (Status.ok, ci)) ∧
    (MemoryMap.mmTell m = (Status.ok, m.position)) := by
  refine ⟨?_, ?_, ?_, ?_, ?_, rfl⟩
  · intro hc
    refine ⟨?_, ?_, fun q => ?_, ?_, ?_, ?_⟩ <;>
      simp [OSFile.read, OSFile.readAt, OSFile.seek, OSFile.tell, OSFile.write,
            OSFile.close, OSFile.checkClosed, hc]
  · by_cases ho : f.isOpen <;> simp [OSFile.close, ho]
  · intro hc
    simp [MemoryMap.mmClose, hc]
  · intro hc
    simp [closeOut, hc]
  · intro hc
    simp [closeIn, hc]

/-- C3 witness: the amended discipline evaluated on concrete closed
handles (with a failing descriptor-close result for the first
close). -/
theorem closed_stream_discipline_witness :
    (OSFile.read fileSampleClosed 2).1 = Status.invalid "Invalid operation on closed file" ∧
    (OSFile.close fileSample (Status.ioError "close failed")).2.isOpen = false ∧
    OSFile.close fileSampleClosed (Status.ioError "close failed") =
      (Status.ok, fileSampleClosed) ∧
    MemoryMap.mmClose mmClosedSample = (Status.ok, mmClosedSample) := by
  have h1 := (closed_stream_discipline fileSampleClosed 0 2 []
    (Status.ioError "close failed") mmClosedSample initOut (initIn [])).1 rfl
  have h2 := (closed_stream_discipline fileSample 0 2 []
    (Status.ioError "close failed") mmClosedSample initOut (initIn [])).2.1
  have h3 := (closed_stream_discipline fileSampleClosed 0 2 []
    (Status.ioError "close failed") mmClosedSample initOut (initIn [])).2.2.1 rfl
  exact ⟨by rw [h1.1], h2, h1.2.2.2.2.2, h3⟩

/-- C9: `ReadableFile::ReadBuffer(n)` on an open, positioned file
succeeds with a buffer whose size is exactly the number of bytes
actually read — `min n (available at the current position)`, hence
never more than `n` — and whenever fewer than `n` bytes were read the
slack up to the allocation capacity is zero-filled, for every
uninitialized allocation content `junk`. -/
theorem readBuffer_size_and_padding (f : OSFile) (n : Nat) (junk : List Nat)
    (hopen : f.isOpen = true) (hpos : f.needSeeking = false) :
    (readBuffer f n junk).1 = Status.ok ∧
    (readBuffer f n junk).2.2.bytes = (f.contents.drop f.pos).take n ∧
    (readBuffer f n junk).2.2.bytes.length = min n (f.contents.length - f.pos) ∧
    (readBuffer f n junk).2.2.bytes.length ≤ n ∧
    ((readBuffer f n junk).2.2.bytes.length < n →
      (readBuffer f n junk).2.2.slack =
        List.replicate (allocCap n - (readBuffer f n junk).2.2.bytes.length) 0) := by
  have hread : OSFile.read f n =
      (Status.ok, { f with pos := f.pos + ((f.contents.drop f.pos).take n).length },
        (f.contents.drop f.pos).take n) := by
    simp [OSFile.read, OSFile.checkClosed, OSFile.checkPositioned, hopen, hpos]
  have hlen : ((f.contents.drop f.pos).take n).length = min n (f.contents.length - f.pos) := by
    simp [List.length_take, List.length_drop]
  have hle : ((f.contents.drop f.pos).take n).length ≤ n := by
    rw [hlen]; exact Nat.min_le_left _ _
  by_cases hlt : ((f.contents.drop f.pos).take n).length < n
  · have hrb : readBuffer f n junk =
        (Status.ok, { f with pos := f.pos + ((f.contents.drop f.pos).take n).length },
          { bytes := (f.contents.drop f.pos).take n,
            slack := List.replicate (allocCap n - ((f.contents.drop f.pos).take n).length) 0 }) := by
      simp only [readBuffer, hread]
      rw [if_pos hlt]
    exact ⟨by rw [hrb], by rw [hrb], by rw [hrb]; exact hlen, by rw [hrb]; exact hle,
      fun _ => by rw [hrb]⟩
  · have heq : ((f.contents.drop f.pos).take n).length = n :=
      Nat.le_antisymm hle (Nat.not_lt.1 hlt)
    set A := (f.contents.drop f.pos).take n with hA
    set B := ((junk ++ List.replicate (allocCap n) 0).take (allocCap n)).drop A.length with hB
    have hrb : readBuffer f n junk =
        (Status.ok, { f with pos := f.pos + A.length },
          { bytes := (A ++ B).take n, slack := (A ++ B).drop n }) := by
      simp only [readBuffer, hread]
      rw [if_neg hlt]
    have hbytes : (A ++ B).take n = A := by
      rw [← heq]
      exact List.take_left A B
    refine ⟨by rw [hrb], by rw [hrb]; exact hbytes, ?_, ?_, ?_⟩
    · rw [hrb]
      simp only []
      rw [hbytes, hlen]
    · rw [hrb]
      simp only []
      rw [hbytes]
      exact hle
    · intro hcontra
      rw [hrb] at hcontra
      simp only [] at hcontra
      rw [hbytes, heq] at hcontra
      exact absurd hcontra (Nat.lt_irrefl n)

/-- C9 witness: reading 8 bytes from a 3-byte file yields a 3-byte
buffer with zeroed slack. -/
theorem readBuffer_size_and_padding_witness :
    (readBuffer fileSample 8 [9, 9, 9, 9]).1 = Status.ok ∧
    (readBuffer fileSample 8 [9, 9, 9, 9]).2.2.bytes = [10, 11, 12] ∧
    (readBuffer fileSample 8 [9, 9, 9, 9]).2.2.slack = List.replicate 61 0 := by
  have h := readBuffer_size_and_padding fileSample 8 [9, 9, 9, 9] rfl rfl
  refine ⟨h.1, ?_, ?_⟩
  · rw [h.2.1]; rfl
  · have hs := h.2.2.2.2 (by rw [h.2.2.1]; decide)
    rw [hs, h.2.2.1]
    rfl

/-- C6: `MemoryMap::Resize` fails with `IOError` whenever the mapping
is read-only, or partial (`map_len_ != file_size_`), or some exported
buffer slice is still alive (`use_count() > 1`), and in each failing
case the mapping is left unchanged. -/
theorem mmap_resize_guards (m : MemoryMap) (n : Nat)
    (h : m.writable = false ∨ m.mapLen ≠ m.fileSize ∨ 1 < m.useCount) :
    (MemoryMap.mmResize m n).1.isIOErr = true ∧ (MemoryMap.mmResize m n).2 = m := by
  by_cases hw : m.writable
  · by_cases hp : m.mapLen = m.fileSize
    · have hu : 1 < m.useCount := by
        rcases h with h | h | h
        · rw [hw] at h; exact absurd h (by simp)
        · exact absurd hp h
        · exact h
      constructor <;>
        simp [MemoryMap.mmResize, hw, hp, hu, Status.isIOErr]
    · constructor <;> simp [MemoryMap.mmResize, hw, hp, Status.isIOErr]
  · constructor <;> simp [MemoryMap.mmResize, hw, Status.isIOErr]

/-- C6 witness: resizing the read-only map and resizing a map with a
live exported slice both fail and change nothing. -/
theorem mmap_resize_guards_witness :
    ((MemoryMap.mmResize mmTinySample 5).1.isIOErr = true ∧
      (MemoryMap.mmResize mmTinySample 5).2 = mmTinySample) ∧
    ((MemoryMap.mmResize mmWritableSample 5).1.isIOErr = true ∧
      (MemoryMap.mmResize mmWritableSample 5).2 = mmWritableSample) :=
  ⟨mmap_resize_guards mmTinySample 5 (Or.inl rfl),
   mmap_resize_guards mmWritableSample 5 (Or.inr (Or.inr (by decide)))⟩

/-- C7: `MemoryMappedFile::Write`/`WriteAt` fail with `IOError` when
the mapping is closed or read-only and with `Invalid` when the write
would pass the current mapped size; the mapped extent never grows, and
on every failure the mapped bytes are unchanged. -/
theorem mmap_write_guards (m : MemoryMap) (p : Int) (data : List Nat) :
    ((m.isOpen = false ∨ m.writable = false) →
      MemoryMap.mmWriteAt m p data = (Status.ioError "Unable to write", m) ∧
      MemoryMap.mmWrite m data = (Status.ioError "Unable to write", m)) ∧
    (m.isOpen = true → m.writable = true → (m.mapLen : Int) < p + data.length →
      MemoryMap.mmWriteAt m p data = (Status.invalid "Cannot write past end of memory map", m)) ∧
    (m.isOpen = true → m.writable = true → (m.mapLen : Int) < (data.length : Int) + m.position →
      MemoryMap.mmWrite m data = (Status.invalid "Cannot write past end of memory map", m)) ∧
    ((MemoryMap.mmWriteAt m p data).2.mapLen = m.mapLen) ∧
    ((MemoryMap.mmWrite m data).2.mapLen = m.mapLen) ∧
    ((MemoryMap.mmWriteAt m p data).1 ≠ Status.ok →
      (MemoryMap.mmWriteAt m p data).2.region = m.region) ∧
    ((MemoryMap.mmWrite m data).1 ≠ Status.ok →
      (MemoryMap.mmWrite m data).2.region = m.region) := by
  have hwa : ∀ s : Status × MemoryMap, s = MemoryMap.mmWriteAt m p data → s.2.mapLen = m.mapLen ∧
      (s.1 ≠ Status.ok → s.2.region = m.region) := by
    intro s hs
    rw [hs]
    by_cases hg : m.isOpen ∧ m.writable
    · by_cases hpast : (m.mapLen : Int) < p + data.length
      · simp [MemoryMap.mmWriteAt, hg, hpast]
      · by_cases hneg : p < 0
        · simp [MemoryMap.mmWriteAt, MemoryMap.mmSeek, hg, hpast, hneg]
        · have hpast2 : ¬((m.mapLen : Int) < (data.length : Int) + p) := by omega
          simp [MemoryMap.mmWriteAt, MemoryMap.mmSeek, MemoryMap.mmWriteInternal,
                hg, hpast, hneg, hpast2]
    · simp [MemoryMap.mmWriteAt, hg]
  have hw : ∀ s : Status × MemoryMap, s = MemoryMap.mmWrite m data → s.2.mapLen = m.mapLen ∧
      (s.1 ≠ Status.ok → s.2.region = m.region) := by
    intro s hs
    rw [hs]
    by_cases hg : m.isOpen ∧ m.writable
    · by_cases hpast : (m.mapLen : Int) < (data.length : Int) + m.position
      · simp [MemoryMap.mmWrite, hg, hpast]
      · simp [MemoryMap.mmWrite, MemoryMap.mmWriteInternal, hg, hpast]
    · simp [MemoryMap.mmWrite, hg]
  refine ⟨?_, ?_, ?_, (hwa _ rfl).1, (hw _ rfl).1, (hwa _ rfl).2, (hw _ rfl).2⟩
  · intro hco
    have hg : ¬(m.isOpen ∧ m.writable) := by
      rcases hco with h | h <;> simp [h]
    constructor <;> simp [MemoryMap.mmWriteAt, MemoryMap.mmWrite, hg]
  · intro ho hwr hpast
    simp [MemoryMap.mmWriteAt, ho, hwr, hpast]
  · intro ho hwr hpast
    simp [MemoryMap.mmWrite, ho, hwr, hpast]

/-- C7 witness: a read-only map rejects writes with `IOError`; an
oversized write on a writable map is `Invalid`; both leave the state
unchanged. -/
theorem mmap_write_guards_witness :
    MemoryMap.mmWriteAt mmTinySample 0 [9] = (Status.ioError "Unable to write", mmTinySample) ∧
    MemoryMap.mmWriteAt mmWritableSample 2 [9, 9, 9] =
      (Status.invalid "Cannot write past end of memory map", mmWritableSample) ∧
    MemoryMap.mmWrite mmWritableSample [9, 9, 9, 9, 9] =
      (Status.invalid "Cannot write past end of memory map", mmWritableSample) :=
  ⟨((mmap_write_guards mmTinySample 0 [9]).1 (Or.inr rfl)).1,
   (mmap_write_guards mmWritableSample 2 [9, 9, 9]).2.1 rfl rfl (by decide),
   (mmap_write_guards mmWritableSample 0 [9, 9, 9, 9, 9]).2.2.1 rfl rfl (by decide)⟩

/-- C10: `MemoryMappedFile::Seek` accepts every non-negative position,
including positions past the mapped size, and rejects only negative
positions with `Invalid`; a `Read` or `ReadAt` issued at a position at
or past the mapped size succeeds with zero bytes. -/
theorem mmap_seek_past_end (m : MemoryMap) (p n : Int) :
    (0 ≤ p → MemoryMap.mmSeek m p = (Status.ok, { m with position := p })) ∧
    (p < 0 → MemoryMap.mmSeek m p = (Status.invalid "position is out of bounds", m)) ∧
    (0 ≤ p → (m.mapLen : Int) ≤ p →
      MemoryMap.mmRead { m with position := p } n =
        (Status.ok, { m with position := p }, 0, some []) ∧
      MemoryMap.mmReadAt m p n = (Status.ok, 0, some [])) := by
  refine ⟨?_, ?_, ?_⟩
  · intro hp
    simp [MemoryMap.mmSeek, not_lt.2 hp]
  · intro hp
    simp [MemoryMap.mmSeek, hp]
  · intro hp hpast
    have hcount : (max 0 (min n ((m.mapLen : Int) - p))).toNat = 0 := by
      rcases le_or_lt n ((m.mapLen : Int) - p) with hn | hn
      · rw [min_eq_left hn]
        rcases le_or_lt n 0 with h0 | h0
        · simp [max_eq_left h0]
        · omega
      · rw [min_eq_right (le_of_lt hn)]
        have : (m.mapLen : Int) - p ≤ 0 := by omega
        simp [max_eq_left this]
    constructor
    · simp [MemoryMap.mmRead, MemoryMap.mmReadAt, hcount]
    · simp [MemoryMap.mmReadAt, hcount]

/-- C10 witness: seeking the one-byte map to 100 succeeds, and the
read issued there returns zero bytes; seeking to -1 is `Invalid`. -/
theorem mmap_seek_past_end_witness :
    MemoryMap.mmSeek mmTinySample 100 = (Status.ok, { mmTinySample with position := 100 }) ∧
    MemoryMap.mmSeek mmTinySample (-1) =
      (Status.invalid "position is out of bounds", mmTinySample) ∧
    MemoryMap.mmRead { mmTinySample with position := 100 } 4 =
      (Status.ok, { mmTinySample with position := 100 }, 0, some []) :=
  ⟨(mmap_seek_past_end mmTinySample 100 4).1 (by decide),
   (mmap_seek_past_end mmTinySample (-1) 4).2.1 (by decide),
   ((mmap_seek_past_end mmTinySample 100 4).2.2 (by decide) (by decide)).1⟩

/-- C2: contrary to the claim, `MemoryMappedFile::ReadAt` performs no
negative-position check (file.cc 669-680): on a one-byte mapping,
`ReadAt(-1, 1)` computes the clamped count `max 0 (min 1 (1 - (-1))) = 1`
and returns `OK` having copied one byte from before the mapped region
(`none` marks the out-of-bounds `memcpy` source), instead of failing.
For positions inside the mapping the clamp formula does hold, as the
second conjunct shows at `p = 5 ≥ S`. -/
theorem mmap_readAt_negative_unchecked :
    MemoryMap.mmReadAt mmTinySample (-1) 1 = (Status.ok, 1, none) ∧
    MemoryMap.mmReadAt mmTinySample 5 3 = (Status.ok, 0, some []) := by
  constructor
  · rfl
  · rfl

/-! ### Write-side lemmas -/

theorem stuff_append (a b : List Nat) : stuff (a ++ b) = stuff a ++ stuff b := by
  simp [stuff]

theorem stuff_length (l : List Nat) : (stuff l).length = 2 * l.length := by
  induction l with
  | nil => rfl
  | cons a t ih =>
    simp only [stuff, List.flatMap_cons] at ih ⊢
    simp only [List.length_append, List.length_cons, List.length_nil, ih]
    omega

theorem flush_concat (st : COutput) :
    (flushCompressed st).rawOut ++ (flushCompressed st).buf = st.rawOut ++ st.buf := by
  by_cases h : 0 < st.buf.length <;> simp [flushCompressed, h]

theorem flush_cap (st : COutput) : (flushCompressed st).cap = st.cap := by
  by_cases h : 0 < st.buf.length <;> simp [flushCompressed, h]

theorem flush_isOpen (st : COutput) : (flushCompressed st).isOpen = st.isOpen := by
  by_cases h : 0 < st.buf.length <;> simp [flushCompressed, h]

theorem flush_of_pos (st : COutput) (h : 0 < st.buf.length) :
    flushCompressed st = { st with rawOut := st.rawOut ++ st.buf, buf := [] } := by
  simp [flushCompressed, h]

theorem writeStepHead_cap (cf : List Nat → Nat → Nat × List Nat) (st : COutput)
    (input : List Nat) : (writeStepHead cf st input).2.cap = st.cap := by
  unfold writeStepHead
  by_cases h : (cf input (st.cap - st.buf.length)).1 = 0 ∧
      0 < ({ st with buf := st.buf ++ (cf input (st.cap - st.buf.length)).2 } : COutput).buf.length
  · rw [if_pos h]
    simp [flush_cap]
  · rw [if_neg h]

theorem writeStepTail_fst (p : Nat × COutput) : (writeStepTail p).1 = p.1 := rfl

theorem writeStepTail_cap (p : Nat × COutput) :
    (writeStepTail p).2.cap = if p.1 = 0 then p.2.cap * 2 else p.2.cap := by
  unfold writeStepTail
  by_cases h0 : p.1 = 0 <;>
    by_cases hf : ({ p.2 with totalPos := p.2.totalPos + p.1 } : COutput).buf.length =
      ({ p.2 with totalPos := p.2.totalPos + p.1 } : COutput).cap <;>
    simp [h0, hf, flush_cap]

theorem writeStep_cap (cf : List Nat → Nat → Nat × List Nat) (st : COutput)
    (input : List Nat) :
    (writeStep cf st input).2.cap =
      if (writeStep cf st input).1 = 0 then st.cap * 2 else st.cap := by
  unfold writeStep
  rw [writeStepTail_cap, writeStepTail_fst, writeStepHead_cap]

theorem writeStep_progress (cf : List Nat → Nat → Nat × List Nat) (st : COutput)
    (input : List Nat) (hcap : 1 ≤ st.cap) :
    1 ≤ (writeStep cf st input).1 ∨ st.cap < (writeStep cf st input).2.cap := by
  by_cases h : (writeStep cf st input).1 = 0
  · right
    rw [writeStep_cap, if_pos h]
    omega
  · left
    omega

theorem writeStepHead_model (st : COutput) (input : List Nat)
    (hbuf : st.buf.length < st.cap) (hcap : 2 ≤ st.cap) (hne : input ≠ []) :
    1 ≤ (writeStepHead modelCompress st input).1 ∧
    (writeStepHead modelCompress st input).1 ≤ input.length ∧
    (writeStepHead modelCompress st input).2.rawOut ++ (writeStepHead modelCompress st input).2.buf
      = st.rawOut ++ st.buf ++ stuff (input.take (writeStepHead modelCompress st input).1) ∧
    (writeStepHead modelCompress st input).2.cap = st.cap ∧
    (writeStepHead modelCompress st input).2.buf.length ≤ st.cap ∧
    (writeStepHead modelCompress st input).2.isOpen = st.isOpen := by
  have hinput : 0 < input.length := List.length_pos.2 hne
  by_cases hs2 : 2 ≤ st.cap - st.buf.length
  · -- enough room: the first compress consumes at least one byte
    have hrpos : 1 ≤ min input.length ((st.cap - st.buf.length) / 2) := by
      have h2 : 1 ≤ (st.cap - st.buf.length) / 2 := by omega
      omega
    have heq : writeStepHead modelCompress st input =
        (min input.length ((st.cap - st.buf.length) / 2),
          { st with buf := (st.buf ++ stuff (input.take (min input.length ((st.cap - st.buf.length) / 2)))) }) := by
      unfold writeStepHead
      simp only [modelCompress]
      rw [if_neg (by
        intro hand
        exact absurd hand.1 (by omega))]
    rw [heq]
    have hlenstuff : (stuff (input.take (min input.length
        ((st.cap - st.buf.length) / 2)))).length ≤ st.cap - st.buf.length := by
      rw [stuff_length, List.length_take]
      have : min (min input.length ((st.cap - st.buf.length) / 2)) input.length ≤
          (st.cap - st.buf.length) / 2 := by omega
      omega
    refine ⟨hrpos, by omega, by simp, rfl, ?_, rfl⟩
    simp only [List.length_append]
    omega
  · -- one byte of room: zero bytes consumed at first, flush and retry
    have hsp1 : st.cap - st.buf.length = 1 := by omega
    have hbufpos : 0 < st.buf.length := by omega
    have hr2pos : 1 ≤ min input.length (st.cap / 2) := by
      have h2 : 1 ≤ st.cap / 2 := by omega
      omega
    have hdiv0 : (st.cap - st.buf.length) / 2 = 0 := by omega
    have hmc1 : modelCompress input (st.cap - st.buf.length) = (0, []) := by
      simp [modelCompress, hdiv0, stuff]
    have heq : writeStepHead modelCompress st input =
        (min input.length (st.cap / 2),
          { st with rawOut := st.rawOut ++ st.buf,
                    buf := stuff (input.take (min input.length (st.cap / 2))) }) := by
      unfold writeStepHead
      rw [hmc1]
      simp only [List.append_nil]
      rw [if_pos ⟨trivial, hbufpos⟩]
      rw [flush_of_pos _ hbufpos]
      simp [modelCompress]
    rw [heq]
    have hlenstuff : (stuff (input.take (min input.length (st.cap / 2)))).length ≤ st.cap := by
      rw [stuff_length, List.length_take]
      have : min (min input.length (st.cap / 2)) input.length ≤ st.cap / 2 := by omega
      omega
    refine ⟨hr2pos, by omega, by simp, rfl, hlenstuff, rfl⟩

theorem writeStepTail_full (p : Nat × COutput) (h0 : ¬p.1 = 0)
    (hfull : p.2.buf.length = p.2.cap) (hpos : 0 < p.2.buf.length) :
    writeStepTail p =
      (p.1, { p.2 with rawOut := p.2.rawOut ++ p.2.buf, buf := [],
                       totalPos := p.2.totalPos + p.1 }) := by
  unfold writeStepTail
  show (p.1, if p.1 = 0 then _ else _) = _
  rw [if_neg h0]
  show (p.1, if ({ p.2 with totalPos := p.2.totalPos + p.1 } : COutput).buf.length =
      ({ p.2 with totalPos := p.2.totalPos + p.1 } : COutput).cap then _ else _) = _
  rw [if_pos (by exact hfull)]
  rw [flush_of_pos _ (by exact hpos)]

theorem writeStepTail_notfull (p : Nat × COutput) (h0 : ¬p.1 = 0)
    (hfull : ¬p.2.buf.length = p.2.cap) :
    writeStepTail p = (p.1, { p.2 with totalPos := p.2.totalPos + p.1 }) := by
  unfold writeStepTail
  show (p.1, if p.1 = 0 then _ else _) = _
  rw [if_neg h0]
  show (p.1, if ({ p.2 with totalPos := p.2.totalPos + p.1 } : COutput).buf.length =
      ({ p.2 with totalPos := p.2.totalPos + p.1 } : COutput).cap then _ else _) = _
  rw [if_neg (by exact hfull)]

theorem writeStepTail_model (p : Nat × COutput) (hr : 1 ≤ p.1)
    (hbuf : p.2.buf.length ≤ p.2.cap) (hcap : 1 ≤ p.2.cap) :
    (writeStepTail p).1 = p.1 ∧
    (writeStepTail p).2.rawOut ++ (writeStepTail p).2.buf = p.2.rawOut ++ p.2.buf ∧
    (writeStepTail p).2.cap = p.2.cap ∧
    (writeStepTail p).2.buf.length < p.2.cap ∧
    (writeStepTail p).2.isOpen = p.2.isOpen := by
  by_cases hfull : p.2.buf.length = p.2.cap
  · rw [writeStepTail_full p (by omega) hfull (by omega)]
    refine ⟨rfl, by simp, rfl, by simpa using hcap, rfl⟩
  · rw [writeStepTail_notfull p (by omega) hfull]
    exact ⟨rfl, rfl, rfl, by dsimp only []; omega, rfl⟩

theorem writeStep_model (st : COutput) (input : List Nat)
    (hbuf : st.buf.length < st.cap) (hcap : 2 ≤ st.cap) (hne : input ≠ []) :
    1 ≤ (writeStep modelCompress st input).1 ∧
    (writeStep modelCompress st input).1 ≤ input.length ∧
    (writeStep modelCompress st input).2.rawOut ++ (writeStep modelCompress st input).2.buf
      = st.rawOut ++ st.buf ++ stuff (input.take (writeStep modelCompress st input).1) ∧
    (writeStep modelCompress st input).2.cap = st.cap ∧
    (writeStep modelCompress st input).2.buf.length < st.cap ∧
    (writeStep modelCompress st input).2.isOpen = st.isOpen := by
  obtain ⟨h1, h2, h3, h4, h5, h6⟩ := writeStepHead_model st input hbuf hcap hne
  obtain ⟨t1, t2, t3, t4, t5⟩ := writeStepTail_model (writeStepHead modelCompress st input)
    h1 (h4 ▸ h5) (by omega : 1 ≤ (writeStepHead modelCompress st input).2.cap)
  unfold writeStep
  rw [t1, t2, t3, t5, h4, h6]
  exact ⟨h1, h2, h3, rfl, h4 ▸ t4, rfl⟩

theorem writeLoop_model : ∀ (fuel : Nat) (input : List Nat) (st : COutput),
    st.buf.length < st.cap → 2 ≤ st.cap → input.length ≤ fuel →
    ∃ st', writeLoop modelCompress st input fuel = (Status.ok, st') ∧
      st'.rawOut ++ st'.buf = st.rawOut ++ st.buf ++ stuff input ∧
      st'.cap = st.cap ∧ st'.buf.length < st'.cap ∧ st'.isOpen = st.isOpen := by
  intro fuel
  induction fuel with
  | zero =>
    intro input st hbuf hcap hlen
    have hnil : input = [] := List.length_eq_zero.1 (Nat.le_zero.1 hlen)
    subst hnil
    exact ⟨st, by simp [writeLoop], by simp [stuff], rfl, hbuf, rfl⟩
  | succ fuel ih =>
    intro input st hbuf hcap hlen
    by_cases hne : input = []
    · subst hne
      exact ⟨st, by simp [writeLoop], by simp [stuff], rfl, hbuf, rfl⟩
    · obtain ⟨h1, h2, h3, h4, h5, h6⟩ := writeStep_model st input hbuf hcap hne
      have hloop : writeLoop modelCompress st input (fuel + 1) =
          writeLoop modelCompress (writeStep modelCompress st input).2
            (input.drop (writeStep modelCompress st input).1) fuel := by
        conv_lhs => rw [writeLoop]
        rw [if_neg (by simp [hne])]
      have hlen2 : (input.drop (writeStep modelCompress st input).1).length ≤ fuel := by
        rw [List.length_drop]
        omega
      obtain ⟨st', hst', hcat, hc, hb, ho⟩ :=
        ih (input.drop (writeStep modelCompress st input).1)
          (writeStep modelCompress st input).2 (h4 ▸ h5) (h4 ▸ hcap) hlen2
      refine ⟨st', by rw [hloop]; exact hst', ?_, by rw [hc, h4], hb, by rw [ho, h6]⟩
      rw [hcat, h3, List.append_assoc, List.append_assoc, ← stuff_append,
        List.take_append_drop, List.append_assoc]

theorem writeAll_model (parts : List (List Nat)) :
    ∃ st', writeAll parts = (Status.ok, st') ∧
      st'.rawOut ++ st'.buf = stuff parts.flatten ∧
      st'.cap = kChunkSize ∧ st'.buf.length < st'.cap ∧ st'.isOpen = true := by
  suffices h : ∀ (ps : List (List Nat)) (st : COutput),
      st.buf.length < st.cap → 2 ≤ st.cap → st.isOpen = true →
      ∃ st', (ps.foldl
        (fun acc p =>
          match acc with
          | (Status.ok, st) => cwrite st p
          | other => other) (Status.ok, st)) = (Status.ok, st') ∧
        st'.rawOut ++ st'.buf = st.rawOut ++ st.buf ++ stuff ps.flatten ∧
        st'.cap = st.cap ∧ st'.buf.length < st'.cap ∧ st'.isOpen = true by
    obtain ⟨st', h1, h2, h3, h4, h5⟩ := h parts initOut (by simp [initOut, kChunkSize])
      (by simp [initOut, kChunkSize]) rfl
    exact ⟨st', h1, by simpa [initOut] using h2, by rw [h3]; rfl, h4, h5⟩
  intro ps
  induction ps with
  | nil =>
    intro st hbuf hcap ho
    exact ⟨st, rfl, by simp [stuff], rfl, hbuf, ho⟩
  | cons p ps ih =>
    intro st hbuf hcap ho
    obtain ⟨st1, hw, hcat1, hc1, hb1, ho1⟩ :=
      writeLoop_model p.length p st hbuf hcap (Nat.le_refl _)
    obtain ⟨st', hfold, hcat2, hc2, hb2, ho2⟩ := ih st1 hb1 (hc1 ▸ hcap) (ho1.trans ho)
    refine ⟨st', ?_, ?_, by rw [hc2, hc1], hb2, ho2⟩
    · simpa [cwrite, hw] using hfold
    · rw [hcat2, hcat1]
      simp [stuff_append, List.append_assoc]

theorem finalizeLoop_model (st : COutput) (h : st.buf.length < st.cap) (fuel : Nat) :
    finalizeLoop st fuel =
      (Status.ok, { st with rawOut := st.rawOut ++ (st.buf ++ [1]), buf := [] }) := by
  have hsp : 1 ≤ st.cap - st.buf.length := by omega
  have hend : modelEnd (st.cap - st.buf.length) = ([1], false) := by simp [modelEnd, hsp]
  unfold finalizeLoop
  rw [hend]
  simp [flushCompressed]

theorem closeOut_model (st : COutput) (ho : st.isOpen = true)
    (h : st.buf.length < st.cap) :
    closeOut st =
      (Status.ok, { st with isOpen := false,
                            rawOut := st.rawOut ++ (st.buf ++ [1]), buf := [] }) := by
  unfold closeOut
  rw [if_pos ho]
  exact finalizeLoop_model { st with isOpen := false } h _

/-- Write-side totality: writing any partition of a payload and
closing the stream emits exactly one frame of the payload on the raw
stream. -/
theorem writeAll_close_model (parts : List (List Nat)) :
    ∃ st', writeAll parts = (Status.ok, st') ∧
      ∃ st'', closeOut st' = (Status.ok, st'') ∧
        st''.rawOut = encodeFrame parts.flatten := by
  obtain ⟨st', h1, h2, h3, h4, h5⟩ := writeAll_model parts
  refine ⟨st', h1, ?_⟩
  rw [closeOut_model st' h5 h4]
  refine ⟨_, rfl, ?_⟩
  show st'.rawOut ++ (st'.buf ++ [1]) = encodeFrame parts.flatten
  rw [encodeFrame, ← h2, List.append_assoc]

/-! ### Read-side lemmas: the decompressor on one chunk -/

theorem decompGo_nil (d : Decomp) (cap : Nat) :
    decompGo d [] cap = ⟨Status.ok, d, 0, [], false⟩ := by
  unfold decompGo
  by_cases h : d.finished = true <;> simp [h]

theorem decompGo_finished (d : Decomp) (input : List Nat) (cap : Nat)
    (h : d.finished = true) : decompGo d input cap = ⟨Status.ok, d, 0, [], false⟩ := by
  unfold decompGo
  simp [h]

theorem decompGo_marker (c : List Nat) (cap : Nat) :
    decompGo Decomp.init (1 :: c) cap = ⟨Status.ok, ⟨true, false⟩, 1, [], false⟩ := rfl

theorem decompGo_zero (c : List Nat) (cap : Nat) :
    decompGo Decomp.init (0 :: c) cap =
      ⟨(decompGo ⟨false, true⟩ c cap).stat, (decompGo ⟨false, true⟩ c cap).d,
       (decompGo ⟨false, true⟩ c cap).consumed + 1, (decompGo ⟨false, true⟩ c cap).out,
       (decompGo ⟨false, true⟩ c cap).needMore⟩ := rfl

theorem decompGo_pending (b : Nat) (c : List Nat) (cap : Nat) :
    decompGo ⟨false, true⟩ (b :: c) (cap + 1) =
      ⟨(decompGo Decomp.init c cap).stat, (decompGo Decomp.init c cap).d,
       (decompGo Decomp.init c cap).consumed + 1, b :: (decompGo Decomp.init c cap).out,
       (decompGo Decomp.init c cap).needMore⟩ := rfl

theorem stuff_cons (a : Nat) (t : List Nat) : stuff (a :: t) = 0 :: a :: stuff t := rfl

/-- Decoding one buffered chunk `c` of a well-shaped stream `c ++ R`:
the call succeeds, never asks for more output room (the chunk fits the
1 MB output budget), consumes the whole chunk unless it stops at a
frame marker, makes progress on a nonempty chunk, and leaves a
well-shaped remainder whose payload is the old payload minus the
produced bytes. -/
theorem decode_chunk : ∀ (c : List Nat) (d : Decomp) (R q : List Nat) (cap : Nat),
    Shape d (c ++ R) q → c.length ≤ cap →
    (decompGo d c cap).stat = Status.ok ∧
    (decompGo d c cap).needMore = false ∧
    ((decompGo d c cap).consumed = c.length ∨ (decompGo d c cap).d.finished = true) ∧
    (c ≠ [] → d.finished = false → 0 < (decompGo d c cap).consumed) ∧
    ((decompGo d c cap).consumed = 0 → (decompGo d c cap).d = d) ∧
    ((decompGo d c cap).d = Decomp.init →
      List.drop (decompGo d c cap).consumed c ++ R = [] → c ++ R = []) ∧
    ∃ q', q = (decompGo d c cap).out ++ q' ∧
      Shape (decompGo d c cap).d (List.drop (decompGo d c cap).consumed c ++ R) q' := by
  intro c
  induction c with
  | nil =>
    intro d R q cap hshape hcap
    rw [decompGo_nil]
    exact ⟨rfl, rfl, Or.inl rfl, fun h => absurd rfl h, fun _ => rfl,
      fun _ h => h, q, rfl, hshape⟩
  | cons b c' ih =>
    intro d R q cap hshape hcap
    rcases hshape with ⟨hd, he, hq⟩ | ⟨hd, r, fs, hnef, he, hq⟩ |
      ⟨hd, bb, r, fs, hnef, he, hq⟩ | ⟨hd, fs, hnef, he, hq⟩
    · exact absurd he (by simp)
    · -- plain state
      subst hd
      cases r with
      | nil =>
        -- the frame marker is next
        simp only [stuff, List.flatMap_nil, List.nil_append, List.cons_append,
          List.cons.injEq] at he
        obtain ⟨hb, he'⟩ := he
        subst hb
        rw [decompGo_marker]
        refine ⟨rfl, rfl, Or.inr rfl, fun _ _ => Nat.zero_lt_one, ?_, ?_, ?_⟩
        · intro h
          exact absurd h (by simp)
        · intro h
          exact absurd h (by simp [Decomp.init])
        · refine ⟨fs.flatten, by simpa using hq, ?_⟩
          refine Or.inr (Or.inr (Or.inr ⟨rfl, fs, hnef, ?_, rfl⟩))
          simpa using he'
      | cons a r' =>
        -- a stuffed pair starts here
        rw [stuff_cons] at he
        simp only [List.cons_append, List.cons.injEq] at he
        obtain ⟨hb, he'⟩ := he
        subst hb
        rw [decompGo_zero]
        have hshape3 : Shape ⟨false, true⟩ (c' ++ R) (a :: (r' ++ fs.flatten)) := by
          refine Or.inr (Or.inr (Or.inl ⟨rfl, a, r', fs, hnef, ?_, rfl⟩))
          simpa using he'
        obtain ⟨g1, g2, g3, g4, g5, g6, q'', hq'', hsh''⟩ :=
          ih ⟨false, true⟩ R (a :: (r' ++ fs.flatten)) cap hshape3 (by simpa using Nat.le_of_succ_le hcap)
        refine ⟨g1, g2, ?_, fun _ _ => Nat.succ_pos _, ?_, ?_, ?_⟩
        · rcases g3 with h | h
          · exact Or.inl (by simp [h])
          · exact Or.inr h
        · intro h
          exact absurd h (by simp)
        · intro hdd hrest
          rw [List.drop_succ_cons] at hrest
          have : c' ++ R = [] := g6 hdd hrest
          have : a :: (stuff r' ++ 1 :: encodeFrames fs) = [] := by
            rw [← this]
            simpa using he'.symm
          exact absurd this (by simp)
        · refine ⟨q'', ?_, by rwa [List.drop_succ_cons]⟩
          have : q = a :: (r' ++ fs.flatten) := by simpa using hq
          rw [this, hq'']
    · -- pending state: the buffered data byte is next
      subst hd
      simp only [List.cons_append, List.cons.injEq] at he
      obtain ⟨hb, he'⟩ := he
      subst hb
      cases cap with
      | zero => exact absurd hcap (by simp)
      | succ cap' =>
        rw [decompGo_pending]
        have hshape2 : Shape Decomp.init (c' ++ R) (r ++ fs.flatten) :=
          Or.inr (Or.inl ⟨rfl, r, fs, hnef, he', rfl⟩)
        obtain ⟨g1, g2, g3, g4, g5, g6, q'', hq'', hsh''⟩ :=
          ih Decomp.init R (r ++ fs.flatten) cap' hshape2 (by simpa using hcap)
        refine ⟨g1, g2, ?_, fun _ _ => Nat.succ_pos _, ?_, ?_, ?_⟩
        · rcases g3 with h | h
          · exact Or.inl (by simp [h])
          · exact Or.inr h
        · intro h
          exact absurd h (by simp)
        · intro hdd hrest
          rw [List.drop_succ_cons] at hrest
          have hnil : c' ++ R = [] := g6 hdd hrest
          have : stuff r ++ 1 :: encodeFrames fs = [] := by rw [← hnil]; exact he'.symm
          exact absurd this (by simp)
        · refine ⟨q'', ?_, by rwa [List.drop_succ_cons]⟩
          rw [hq, hq'']
          rfl
    · -- finished state: nothing is consumed until the reset
      rw [decompGo_finished d _ _ (by rw [hd])]
      refine ⟨rfl, rfl, Or.inr (by rw [hd]), ?_, fun _ => rfl, ?_, ?_⟩
      · intro _ hfin
        rw [hd] at hfin
        exact absurd hfin (by simp)
      · intro hdd
        rw [hd] at hdd
        exact absurd hdd (by simp [Decomp.init])
      · exact ⟨q, by simp [hq], by
          rw [List.drop_zero]
          exact Or.inr (Or.inr (Or.inr ⟨hd, fs, hnef, he, hq⟩))⟩

/-- When the plain (resp. pending) decoder reaches the finished state
on a chunk, its output is exactly the residue of the current frame. -/
theorem decompGo_finish_out : ∀ (c R : List Nat) (cap : Nat),
    (∀ r fs, c.length ≤ cap → c ++ R = stuff r ++ 1 :: encodeFrames fs →
      (decompGo Decomp.init c cap).d.finished = true → (decompGo Decomp.init c cap).out = r) ∧
    (∀ b r fs, c.length ≤ cap → c ++ R = b :: (stuff r ++ 1 :: encodeFrames fs) →
      (decompGo ⟨false, true⟩ c cap).d.finished = true →
      (decompGo ⟨false, true⟩ c cap).out = b :: r) := by
  intro c
  induction c with
  | nil =>
    intro R cap
    constructor
    · intro r fs _ _ hfin
      rw [decompGo_nil] at hfin
      exact absurd hfin (by simp [Decomp.init])
    · intro b r fs _ _ hfin
      rw [decompGo_nil] at hfin
      exact absurd hfin (by simp)
  | cons x c' ih =>
    intro R cap
    constructor
    · intro r fs hcap he hfin
      cases r with
      | nil =>
        simp only [stuff, List.flatMap_nil, List.nil_append, List.cons_append,
          List.cons.injEq] at he
        obtain ⟨hx, _⟩ := he
        subst hx
        rw [decompGo_marker]
      | cons a r' =>
        rw [stuff_cons] at he
        simp only [List.cons_append, List.cons.injEq] at he
        obtain ⟨hx, he'⟩ := he
        subst hx
        rw [decompGo_zero] at hfin ⊢
        exact (ih R cap).2 a r' fs (by simpa using Nat.le_of_succ_le hcap)
          (by simpa using he') hfin
    · intro b r fs hcap he hfin
      simp only [List.cons_append, List.cons.injEq] at he
      obtain ⟨hx, he'⟩ := he
      subst hx
      cases cap with
      | zero => exact absurd hcap (by simp)
      | succ cap' =>
        rw [decompGo_pending] at hfin ⊢
        exact congrArg (List.cons x) ((ih R cap').1 r fs (by simpa using hcap) he' hfin)

/-! ### DecompressData, EnsureCompressedData and Refill equations -/

theorem compressedAvail_eq (st : CInput) : compressedAvail st = (cavail st).length := by
  rcases hc : st.compressed with _ | c <;>
    simp [compressedAvail, cavail, hc]

theorem cavail_none (st : CInput) (h : st.compressed = none) : cavail st = [] := by
  simp [cavail, h]

theorem ensure_noop (st : CInput) (h : cavail st ≠ []) : ensureCompressedData st = st := by
  unfold ensureCompressedData
  rw [if_neg (by rw [compressedAvail_eq]; simpa using h)]

theorem ensure_read (st : CInput) (h : cavail st = []) :
    ensureCompressedData st =
      { st with compressed := some (st.raw.take kChunkSize),
                raw := st.raw.drop kChunkSize, compressedPos := 0 } := by
  unfold ensureCompressedData
  rw [if_pos (by rw [compressedAvail_eq, h]; rfl)]

theorem decompressDataAux_succ (st : CInput) (sz fuel : Nat) :
    decompressDataAux st sz (fuel + 1) =
      (match (decompGo st.decomp (cavail st) sz).stat with
       | Status.ok =>
         if 0 < (decompGo st.decomp (cavail st) sz).out.length ∨
            (decompGo st.decomp (cavail st) sz).needMore = false ∨
            (cavail st).length = 0 then
           (Status.ok,
             { st with
               compressedPos := st.compressedPos + (decompGo st.decomp (cavail st) sz).consumed,
               decomp := (decompGo st.decomp (cavail st) sz).d,
               fresh := if 0 < (decompGo st.decomp (cavail st) sz).consumed then false
                        else st.fresh,
               decompressed := some (decompGo st.decomp (cavail st) sz).out,
               decompressedPos := 0 })
         else
           decompressDataAux
             { st with
               compressedPos := st.compressedPos + (decompGo st.decomp (cavail st) sz).consumed,
               decomp := (decompGo st.decomp (cavail st) sz).d,
               fresh := if 0 < (decompGo st.decomp (cavail st) sz).consumed then false
                        else st.fresh }
             (sz * 2) fuel
       | e => (e, st)) := rfl

theorem decompressData_eq (st : CInput)
    (hstat : (decompGo st.decomp (cavail st) kDecompressSize).stat = Status.ok)
    (hexit : 0 < (decompGo st.decomp (cavail st) kDecompressSize).out.length ∨
             (decompGo st.decomp (cavail st) kDecompressSize).needMore = false ∨
             (cavail st).length = 0) :
    decompressData st = (Status.ok,
      { st with
        compressedPos := st.compressedPos +
          (decompGo st.decomp (cavail st) kDecompressSize).consumed,
        decomp := (decompGo st.decomp (cavail st) kDecompressSize).d,
        fresh := if 0 < (decompGo st.decomp (cavail st) kDecompressSize).consumed then false
                 else st.fresh,
        decompressed := some (decompGo st.decomp (cavail st) kDecompressSize).out,
        decompressedPos := 0 }) := by
  have h64 : decompressData st = decompressDataAux st kDecompressSize (63 + 1) := rfl
  rw [h64, decompressDataAux_succ, hstat]
  rw [if_pos hexit]

theorem refill_ok (st stA : CInput)
    (hp1 : (if st.compressed.isSome then
             decompressData
               (if st.decomp.finished then { st with decomp := Decomp.init, fresh := true }
                else st)
           else (Status.ok, st)) = (Status.ok, stA)) :
    refill st = refillTail stA := by
  unfold refill
  rw [hp1]

theorem refillTail_data (st1 : CInput) (out : List Nat)
    (hd : st1.decompressed = some out) (hne : out ≠ []) :
    refillTail st1 = (Status.ok, st1, true) := by
  unfold refillTail
  rw [hd]
  rw [if_neg (by simp [hne])]

theorem refillTail_empty (st1 : CInput)
    (hd : st1.decompressed = none ∨ st1.decompressed = some []) :
    refillTail st1 =
      (if (ensureCompressedData st1).compressedPos =
          ((ensureCompressedData st1).compressed.getD []).length then
         if (ensureCompressedData st1).fresh then (Status.ok, ensureCompressedData st1, false)
         else (Status.ioError "Truncated compressed stream", ensureCompressedData st1, false)
       else
         match decompressData (ensureCompressedData st1) with
         | (Status.ok, st3) => (Status.ok, st3, true)
         | (e, st3) => (e, st3, false)) := by
  unfold refillTail
  rcases hd with h | h <;> rw [h] <;> simp

theorem kChunk_le_kDecompress : kChunkSize ≤ kDecompressSize := by
  norm_num [kChunkSize, kDecompressSize]

/-- `DecompressData` on a state holding a nonempty chunk of a
well-shaped stream with a non-finished decompressor: it succeeds and
re-establishes the invariant with a strictly smaller measure. -/
theorem decompressData_invariant (u : CInput) (q : List Nat)
    (hShape : Shape u.decomp (cavail u ++ u.raw) q)
    (hclen : (cavail u).length ≤ kChunkSize)
    (hnf : u.decomp.finished = false)
    (hisSome : u.compressed.isSome = true)
    (hcne : cavail u ≠ []) :
    ∃ u', decompressData u = (Status.ok, u') ∧ Inv u' q ∧
      Phi u' < 2 * (u.raw.length + (cavail u).length) ∧
      u'.decompressed = some (decompGo u.decomp (cavail u) kDecompressSize).out := by
  obtain ⟨g1, g2, g3, g4, g5, g6, q', hq', hsh'⟩ :=
    decode_chunk (cavail u) u.decomp u.raw q kDecompressSize hShape
      (le_trans hclen kChunk_le_kDecompress)
  have hDD := decompressData_eq u g1 (Or.inr (Or.inl g2))
  set k := (decompGo u.decomp (cavail u) kDecompressSize).consumed with hk
  set dd := (decompGo u.decomp (cavail u) kDecompressSize).d with hdd
  set out := (decompGo u.decomp (cavail u) kDecompressSize).out with hout
  set u' : CInput :=
    { u with compressedPos := u.compressedPos + k, decomp := dd,
             fresh := if 0 < k then false else u.fresh,
             decompressed := some out, decompressedPos := 0 } with hu'
  have hkpos : 0 < k := g4 hcne hnf
  have hcav' : cavail u' = (cavail u).drop k := by
    show (u.compressed.getD []).drop (u.compressedPos + k) = _
    rw [cavail, List.drop_drop, Nat.add_comm]
  refine ⟨u', hDD, ⟨q', ?_, ?_, ?_, ?_, ?_, ?_, ?_⟩, ?_, rfl⟩
  · have hdav : davail u' = out := by simp [davail]
    rw [hdav]
    exact hq'
  · show Shape dd (cavail u' ++ u.raw) q'
    rw [hcav']
    exact hsh'
  · rw [hcav']
    exact le_trans (by simpa using List.length_drop_le k (cavail u)) hclen
  · intro hne
    rcases g3 with h | h
    · rw [hcav', h] at hne
      exact absurd (List.drop_length (cavail u)) hne
    · exact h
  · intro _
    exact hisSome
  · intro hinit habs
    rw [hcav'] at habs
    have h0 : cavail u ++ u.raw = [] := g6 hinit habs
    exact absurd (List.append_eq_nil.1 h0).1 hcne
  · show DOK u'
    rcases hout' : out with _ | ⟨a, t⟩
    · exact Or.inr ⟨[], by rw [← hout'], Or.inr ⟨rfl, rfl⟩⟩
    · exact Or.inr ⟨a :: t, by rw [← hout'], Or.inl (by simp)⟩
  · show 2 * (u'.raw.length + (cavail u').length) +
        (if u'.decomp.finished = true then 1 else 0) < 2 * (u.raw.length + (cavail u).length)
    have h1 : u'.raw = u.raw := rfl
    have h2 : u'.decomp = dd := rfl
    rw [h1, h2, hcav', List.length_drop]
    have hb : (if dd.finished = true then 1 else 0) ≤ 1 := by
      by_cases h : dd.finished = true <;> simp [h]
    have hCpos : 0 < (cavail u).length := List.length_pos.2 hcne
    omega

/-- `refillTail` on a drained state whose compressed buffer is spent
but whose raw stream still has bytes: a fresh chunk is read and
decompressed, the invariant is re-established. -/
theorem refillTail_second (st1 : CInput) (q : List Nat)
    (hd : st1.decompressed = none ∨ st1.decompressed = some [])
    (hc1 : cavail st1 = [])
    (hRne : st1.raw ≠ [])
    (hnf : st1.decomp.finished = false)
    (hShape : Shape st1.decomp (cavail st1 ++ st1.raw) q) :
    ∃ st3, refillTail st1 = (Status.ok, st3, true) ∧ Inv st3 q ∧
      Phi st3 < 2 * st1.raw.length := by
  rw [refillTail_empty st1 hd, ensure_read st1 hc1]
  set st2 : CInput :=
    { st1 with compressed := some (st1.raw.take kChunkSize),
               raw := st1.raw.drop kChunkSize, compressedPos := 0 } with hst2
  have hchunkne : st1.raw.take kChunkSize ≠ [] := by
    simp [List.take_eq_nil_iff, hRne, kChunkSize]
  have hcav2 : cavail st2 = st1.raw.take kChunkSize := by
    simp [cavail]
  have hcond : ¬(st2.compressedPos = (st2.compressed.getD []).length) := by
    show ¬((0 : Nat) = (st1.raw.take kChunkSize).length)
    intro h
    exact hchunkne (List.length_eq_zero.1 h.symm)
  rw [if_neg hcond]
  obtain ⟨u', hDD, hInv, hPhi, _⟩ := decompressData_invariant st2 q
    (by
      rw [hcav2]
      show Shape st1.decomp _ q
      rw [List.take_append_drop]
      rw [hc1] at hShape
      exact hShape)
    (by rw [hcav2]; simpa using List.length_take_le kChunkSize st1.raw)
    hnf rfl (by rw [hcav2]; exact hchunkne)
  rw [hDD]
  refine ⟨u', rfl, hInv, ?_⟩
  calc Phi u' < 2 * (st2.raw.length + (cavail st2).length) := hPhi
    _ = 2 * st1.raw.length := by
        rw [hcav2]
        show 2 * ((st1.raw.drop kChunkSize).length + (st1.raw.take kChunkSize).length) = _
        rw [List.length_drop, List.length_take]
        omega

/-- `refillTail` on a drained state with a finished decompressor and
bytes still buffered: the spent-marker spin iteration, which reports
data available without producing any. -/
theorem refillTail_spin (st1 : CInput) (q : List Nat)
    (hd : st1.decompressed = none ∨ st1.decompressed = some [])
    (hc1 : cavail st1 ≠ [])
    (hfin : st1.decomp.finished = true)
    (hShape : Shape st1.decomp (cavail st1 ++ st1.raw) q)
    (hclen : (cavail st1).length ≤ kChunkSize)
    (hisSome : st1.compressed.isSome = true) :
    ∃ st3, refillTail st1 = (Status.ok, st3, true) ∧ Inv st3 q ∧ Phi st3 = Phi st1 := by
  rw [refillTail_empty st1 hd, ensure_noop st1 hc1]
  have hcond : ¬(st1.compressedPos = (st1.compressed.getD []).length) := by
    intro h
    exact hc1 (by
      show (st1.compressed.getD []).drop st1.compressedPos = []
      rw [h]
      exact List.drop_length _)
  rw [if_neg hcond]
  have hgo : decompGo st1.decomp (cavail st1) kDecompressSize =
      ⟨Status.ok, st1.decomp, 0, [], false⟩ := decompGo_finished _ _ _ hfin
  have hDD := decompressData_eq st1 (by rw [hgo]) (by rw [hgo]; exact Or.inr (Or.inl rfl))
  rw [hgo] at hDD
  rw [hDD]
  set st3 : CInput :=
    { st1 with compressedPos := st1.compressedPos + 0, decomp := st1.decomp,
               fresh := if 0 < 0 then false else st1.fresh,
               decompressed := some [], decompressedPos := 0 } with hst3
  have hcav3 : cavail st3 = cavail st1 := by
    show (st1.compressed.getD []).drop (st1.compressedPos + 0) = _
    rw [Nat.add_zero]
    rfl
  refine ⟨st3, rfl, ⟨q, ?_, ?_, ?_, ?_, ?_, ?_, ?_⟩, ?_⟩
  · have : davail st3 = [] := by simp [davail]
    rw [this]
    rfl
  · show Shape st1.decomp (cavail st3 ++ st1.raw) q
    rw [hcav3]
    exact hShape
  · rw [hcav3]
    exact hclen
  · intro _
    exact hfin
  · intro _
    exact hisSome
  · intro hinit _
    rw [show st3.decomp = st1.decomp from rfl, hinit] at hfin
    exact absurd hfin (by simp [Decomp.init])
  · exact Or.inr ⟨[], rfl, Or.inr ⟨rfl, rfl⟩⟩
  · show 2 * (st1.raw.length + (cavail st3).length) + _ = _
    rw [hcav3]
    rfl

theorem encodeFrames_cons (f : List Nat) (fs : List (List Nat)) :
    encodeFrames (f :: fs) = stuff f ++ 1 :: encodeFrames fs := by
  simp [encodeFrames, encodeFrame]

theorem refillTail_eos (st1 : CInput)
    (hd : st1.decompressed = none ∨ st1.decompressed = some [])
    (hc1 : cavail st1 = []) (hR : st1.raw = []) (hfr : st1.fresh = true) :
    ∃ st2, refillTail st1 = (Status.ok, st2, false) := by
  rw [refillTail_empty st1 hd, ensure_read st1 hc1]
  have h0 : st1.raw.take kChunkSize = [] := by rw [hR]; rfl
  rw [if_pos (by
    show (0 : Nat) = (st1.raw.take kChunkSize).length
    rw [h0]
    rfl)]
  rw [if_pos (show _ = true from hfr)]
  exact ⟨_, rfl⟩

/-- One `RefillDecompressed` call from an invariant state with a
drained decompressed buffer: it either reports data with the invariant
re-established and the measure strictly decreased, or it reports a
clean end of stream, in which case no payload remained.  In
particular the truncation error is unreachable from invariant
states. -/
theorem refill_spec (st : CInput) (q : List Nat)
    (hShape : Shape st.decomp (cavail st ++ st.raw) q)
    (hclen : (cavail st).length ≤ kChunkSize)
    (hfin1 : cavail st ≠ [] → st.decomp.finished = true)
    (hfin2 : st.decomp.finished = true → st.compressed.isSome = true)
    (hfresh : st.decomp = Decomp.init → cavail st ++ st.raw = [] → st.fresh = true)
    (hD : st.decompressed = none ∨ st.decompressed = some []) :
    (∃ st', refill st = (Status.ok, st', true) ∧ Inv st' q ∧ Phi st' < Phi st) ∨
    (∃ st', refill st = (Status.ok, st', false) ∧ q = []) := by
  by_cases hfin : st.decomp.finished = true
  case neg =>
    -- CASE plain or pending decompressor: the buffered chunk is spent
    have hfinF : st.decomp.finished = false := by
      cases h : st.decomp.finished
      · rfl
      · exact absurd h hfin
    have hc : cavail st = [] := by
      by_contra h
      exact hfin (hfin1 h)
    have hPhi0 : Phi st = 2 * st.raw.length := by
      unfold Phi
      rw [hc, hfinF]
      simp
    -- the first refill branch leaves a drained state with the same fields
    have hstep : ∃ stA, refill st = refillTail stA ∧
        (stA.decompressed = none ∨ stA.decompressed = some []) ∧
        cavail stA = [] ∧ stA.raw = st.raw ∧ stA.decomp = st.decomp ∧
        stA.fresh = st.fresh := by
      by_cases hsome : st.compressed.isSome = true
      · have hgo : decompGo st.decomp (cavail st) kDecompressSize =
            ⟨Status.ok, st.decomp, 0, [], false⟩ := by
          rw [hc, decompGo_nil]
        have hDD := decompressData_eq st (by rw [hgo]) (by rw [hgo]; exact Or.inr (Or.inl rfl))
        rw [hgo] at hDD
        set stA0 : CInput :=
          { st with compressedPos := st.compressedPos + 0, decomp := st.decomp,
                    fresh := if 0 < 0 then false else st.fresh,
                    decompressed := some [], decompressedPos := 0 } with hstA0
        refine ⟨stA0,
          refill_ok st stA0 (by rw [if_pos hsome, if_neg (by simp [hfinF])]; exact hDD),
          Or.inr rfl, ?_, rfl, rfl, by simp⟩
        · show (st.compressed.getD []).drop (st.compressedPos + 0) = []
          rw [Nat.add_zero]
          exact hc
      · have hnone : st.compressed = none := by
          cases h : st.compressed
          · rfl
          · rw [h] at hsome; exact absurd rfl hsome
        exact ⟨st, refill_ok st st (by rw [if_neg hsome]), hD, hc, rfl, rfl, rfl⟩
    obtain ⟨stA, hre, hdA, hcA, hrawA, hdecompA, hfreshA⟩ := hstep
    have hShapeA : Shape stA.decomp (cavail stA ++ stA.raw) q := by
      rw [hcA, hrawA, hdecompA]
      rw [hc] at hShape
      exact hShape
    by_cases hR : st.raw = []
    · -- clean end of stream
      have hq0 : q = [] := by
        rw [hc, hR] at hShape
        rcases hShape with ⟨_, _, h⟩ | ⟨_, r, fs, _, habs, _⟩ | ⟨_, b, r, fs, _, habs, _⟩ |
          ⟨habs, _⟩
        · exact h
        · exact absurd habs.symm (by simp)
        · exact absurd habs.symm (by simp)
        · rw [habs] at hfinF; exact absurd hfinF (by simp)
      have hfrA : stA.fresh = true := by
        rw [hfreshA]
        refine hfresh ?_ (by rw [hc, hR]; rfl)
        rw [hc, hR] at hShape
        rcases hShape with ⟨h, _, _⟩ | ⟨_, r, fs, _, habs, _⟩ | ⟨_, b, r, fs, _, habs, _⟩ |
          ⟨habs, _⟩
        · exact h
        · exact absurd habs.symm (by simp)
        · exact absurd habs.symm (by simp)
        · rw [habs] at hfinF; exact absurd hfinF (by simp)
      obtain ⟨st2, h2⟩ := refillTail_eos stA hdA hcA (by rw [hrawA]; exact hR) hfrA
      exact Or.inr ⟨st2, by rw [hre, h2], hq0⟩
    · -- read and decompress a fresh chunk
      obtain ⟨st3, h3, hInv3, hPhi3⟩ := refillTail_second stA q hdA hcA
        (by rw [hrawA]; exact hR) (by rw [hdecompA]; exact hfinF) hShapeA
      refine Or.inl ⟨st3, by rw [hre, h3], hInv3, ?_⟩
      rw [hPhi0]
      calc Phi st3 < 2 * stA.raw.length := hPhi3
        _ = 2 * st.raw.length := by rw [hrawA]
  case pos =>
    -- CASE finished decompressor: reset, then decode what remains
    have hisSome := hfin2 hfin
    obtain ⟨fs, hnef, he, hq⟩ : ∃ fs, NEF fs ∧
        cavail st ++ st.raw = encodeFrames fs ∧ q = fs.flatten := by
      rcases hShape with ⟨habs, _, _⟩ | ⟨habs, _⟩ | ⟨habs, _⟩ | ⟨_, fs, hnef, he, hq⟩
      · rw [habs] at hfin; exact absurd hfin (by simp [Decomp.init])
      · rw [habs] at hfin; exact absurd hfin (by simp [Decomp.init])
      · rw [habs] at hfin; exact absurd hfin (by simp)
      · exact ⟨fs, hnef, he, hq⟩
    have hShape0 : Shape Decomp.init (cavail st ++ st.raw) q := by
      cases fs with
      | nil =>
        rw [he, hq]
        exact Or.inl ⟨rfl, rfl, rfl⟩
      | cons f fs' =>
        refine Or.inr (Or.inl ⟨rfl, f, fs', fun g hg => hnef g (List.mem_cons_of_mem f hg), ?_, ?_⟩)
        · rw [he, encodeFrames_cons]
        · rw [hq]
          simp
    have hPhiSt : Phi st = 2 * (st.raw.length + (cavail st).length) + 1 := by
      unfold Phi
      rw [hfin]
      simp
    by_cases hc : cavail st = []
    · -- nothing buffered: behave like the plain case but with fresh set
      have hgo : decompGo Decomp.init (cavail st) kDecompressSize =
          ⟨Status.ok, Decomp.init, 0, [], false⟩ := by
        rw [hc, decompGo_nil]
      set st0 : CInput := { st with decomp := Decomp.init, fresh := true } with hst0
      have hcav0 : cavail st0 = cavail st := rfl
      have hDD := decompressData_eq st0 (by rw [hcav0, hgo]) (by
        rw [hcav0, hgo]
        exact Or.inr (Or.inl rfl))
      rw [hcav0, hgo] at hDD
      have hre := refill_ok st _ (by rw [if_pos hisSome, if_pos hfin]; exact hDD)
      set stA : CInput :=
        { st0 with compressedPos := st0.compressedPos + 0, decomp := Decomp.init,
                   fresh := if 0 < 0 then false else st0.fresh,
                   decompressed := some [], decompressedPos := 0 } with hstA
      have hcavA : cavail stA = [] := by
        show (st.compressed.getD []).drop (st.compressedPos + 0) = []
        rw [Nat.add_zero]
        exact hc
      by_cases hR : st.raw = []
      · have hq0 : q = [] := by
          rw [hc, hR] at he
          cases fs with
          | nil => rw [hq]; rfl
          | cons f fs' =>
            rw [encodeFrames_cons] at he
            exact absurd he.symm (by simp)
        obtain ⟨st2, h2⟩ := refillTail_eos stA (Or.inr rfl) hcavA hR (by simp)
        exact Or.inr ⟨st2, by rw [hre, h2], hq0⟩
      · obtain ⟨st3, h3, hInv3, hPhi3⟩ := refillTail_second stA q (Or.inr rfl) hcavA hR
          (by simp [Decomp.init]) (by
            rw [hcavA]
            show Shape Decomp.init ([] ++ st.raw) q
            rw [hc] at hShape0
            exact hShape0)
        refine Or.inl ⟨st3, by rw [hre, h3], hInv3, ?_⟩
        have hrA : stA.raw = st.raw := rfl
        rw [hrA] at hPhi3
        rw [hPhiSt]
        omega
    · -- decode the buffered remainder after the reset
      set st0 : CInput := { st with decomp := Decomp.init, fresh := true } with hst0
      have hcav0 : cavail st0 = cavail st := rfl
      have hShape00 : Shape st0.decomp (cavail st0 ++ st0.raw) q := hShape0
      obtain ⟨fshead, fstail, hfs⟩ : ∃ f fs', fs = f :: fs' := by
        cases fs with
        | nil =>
          exfalso
          have h0 : cavail st ++ st.raw = [] := by rw [he]; rfl
          exact hc (List.append_eq_nil.1 h0).1
        | cons f fs' => exact ⟨f, fs', rfl⟩
      have hdecomp2 : cavail st ++ st.raw = stuff fshead ++ 1 :: encodeFrames fstail := by
        rw [he, hfs, encodeFrames_cons]
      have hfheadne : fshead ≠ [] := hnef fshead (by rw [hfs]; exact List.mem_cons_self _ _)
      obtain ⟨g1, g2, g3, g4, g5, g6, q', hq', hsh'⟩ :=
        decode_chunk (cavail st) Decomp.init st.raw q kDecompressSize hShape0
          (le_trans hclen kChunk_le_kDecompress)
      have hDD := decompressData_eq st0 (by rw [hcav0]; exact g1)
        (by rw [hcav0]; exact Or.inr (Or.inl g2))
      have hre := refill_ok st _ (by rw [if_pos hisSome, if_pos hfin]; exact hDD)
      set k := (decompGo Decomp.init (cavail st) kDecompressSize).consumed with hk
      set dd := (decompGo Decomp.init (cavail st) kDecompressSize).d with hdd
      set out := (decompGo Decomp.init (cavail st) kDecompressSize).out with hout
      have hkpos : 0 < k := g4 hc (by simp [Decomp.init])
      set stA : CInput :=
        { st0 with compressedPos := st0.compressedPos + k, decomp := dd,
                   fresh := if 0 < k then false else st0.fresh,
                   decompressed := some out, decompressedPos := 0 } with hstA
      have hcavA : cavail stA = (cavail st).drop k := by
        show (st.compressed.getD []).drop (st.compressedPos + k) = _
        rw [cavail, List.drop_drop, Nat.add_comm]
      have hrawA : stA.raw = st.raw := rfl
      have hre2 : refill st = refillTail stA := by rw [hre]; rfl
      by_cases houtE : out = []
      · -- the decoder produced nothing: it consumed a marker or a lone tag
        have hq'q : q = q' := by rw [hq', houtE]; rfl
        have hddnotfin : dd.finished = false := by
          cases hddf : dd.finished
          · rfl
          · have := (decompGo_finish_out (cavail st) st.raw kDecompressSize).1 fshead fstail
              (le_trans hclen kChunk_le_kDecompress) hdecomp2 (by rw [← hdd]; exact hddf)
            rw [← hout] at this
            exact absurd (this ▸ houtE) hfheadne
        by_cases hdrop : (cavail st).drop k = []
        · by_cases hR : st.raw = []
          · -- impossible: a non-finished decoder cannot drain a shaped stream
            exfalso
            rw [hdrop, hR] at hsh'
            rcases hsh' with ⟨hdinit, _, _⟩ | ⟨_, r2, fs2, _, habs, _⟩ |
              ⟨_, b2, r2, fs2, _, habs, _⟩ | ⟨habs, _⟩
            · have h0 : cavail st ++ st.raw = [] := g6 hdinit (by rw [hdrop, hR]; rfl)
              exact hc (List.append_eq_nil.1 h0).1
            · exact absurd habs.symm (by simp)
            · exact absurd habs.symm (by simp)
            · rw [habs] at hddnotfin
              exact absurd hddnotfin (by simp)
          · -- fetch the next chunk and decode it
            obtain ⟨st3, h3, hInv3, hPhi3⟩ := refillTail_second stA q' (Or.inr (by
                rw [houtE] at hstA
                rw [hstA]))
              (by rw [hcavA]; exact hdrop) (by rw [hrawA]; exact hR)
              (by show dd.finished = false; exact hddnotfin)
              (by
                rw [hcavA, hrawA, hdrop]
                show Shape dd ([] ++ st.raw) q'
                rw [hdrop] at hsh'
                exact hsh')
            refine Or.inl ⟨st3, by rw [hre2, h3], by rw [hq'q]; exact hInv3, ?_⟩
            rw [hPhiSt, hrawA] at *
            have : Phi st3 < 2 * st.raw.length := by rw [← hrawA]; exact hPhi3
            omega
        · -- the marker of a spent frame: one spin iteration
          have hddfin : dd.finished = true := by
            rcases g3 with h | h
            · exact absurd (by rw [h]; exact List.drop_length _) hdrop
            · exact h
          exact absurd hddfin (by rw [hddnotfin]; simp)
      · -- the decoder produced payload bytes: report data available
        have hreT : refill st = (Status.ok, stA, true) := by
          rw [hre2, refillTail_data stA out (by rw [hstA]) houtE]
        refine Or.inl ⟨stA, hreT, ⟨q', ?_, ?_, ?_, ?_, ?_, ?_, ?_⟩, ?_⟩
        · have : davail stA = out := by simp [davail]
          rw [this]
          exact hq'
        · show Shape dd (cavail stA ++ st.raw) q'
          rw [hcavA]
          exact hsh'
        · rw [hcavA]
          exact le_trans (by simpa using List.length_drop_le k (cavail st)) hclen
        · intro hne
          rcases g3 with h | h
          · rw [hcavA, h] at hne
            exact absurd (List.drop_length _) hne
          · exact h
        · intro _
          exact hisSome
        · intro hinit habs
          rw [hcavA] at habs
          have h0 : cavail st ++ st.raw = [] := g6 hinit habs
          exact absurd (List.append_eq_nil.1 h0).1 hc
        · rcases houtc : out with _ | ⟨a, t⟩
          · exact Or.inr ⟨[], by rw [← houtc], Or.inr ⟨rfl, rfl⟩⟩
          · exact Or.inr ⟨a :: t, by rw [← houtc], Or.inl (by simp)⟩
        · show 2 * (stA.raw.length + (cavail stA).length) +
              (if dd.finished = true then 1 else 0) < Phi st
          rw [hPhiSt, hrawA, hcavA, List.length_drop]
          have hb : (if dd.finished = true then 1 else 0) ≤ 1 := by
            by_cases h : dd.finished = true <;> simp [h]
          have hCpos : 0 < (cavail st).length := List.length_pos.2 hc
          omega
  -- end

theorem drained_of_DOK (st : CInput) (hDOK : DOK st) (h : davail st = []) :
    st.decompressed = none ∨ st.decompressed = some [] := by
  rcases hDOK with h1 | ⟨dd, h1, h2 | ⟨h2, h3⟩⟩
  · exact Or.inl h1
  · exfalso
    rw [davail, h1] at h
    have := List.length_eq_zero.2 h
    rw [List.length_drop] at this
    omega
  · rw [h2] at h1
    exact Or.inr h1

theorem cavail_congr (a b : CInput) (h1 : a.compressed = b.compressed)
    (h2 : a.compressedPos = b.compressedPos) : cavail a = cavail b := by
  rw [cavail, cavail, h1, h2]

theorem Phi_congr (a b : CInput) (h1 : a.compressed = b.compressed)
    (h2 : a.compressedPos = b.compressedPos) (h3 : a.raw = b.raw)
    (h4 : a.decomp = b.decomp) : Phi a = Phi b := by
  rw [Phi, Phi, cavail_congr a b h1 h2, h3, h4]

theorem readFrom_spec (st : CInput) (want : Nat) (hDOK : DOK st) :
    (readFromDecompressed st want).2 = (davail st).take want ∧
    davail (readFromDecompressed st want).1 = (davail st).drop want ∧
    DOK (readFromDecompressed st want).1 ∧
    (readFromDecompressed st want).1.raw = st.raw ∧
    (readFromDecompressed st want).1.compressed = st.compressed ∧
    (readFromDecompressed st want).1.compressedPos = st.compressedPos ∧
    (readFromDecompressed st want).1.decomp = st.decomp ∧
    (readFromDecompressed st want).1.fresh = st.fresh := by
  rcases hdec : st.decompressed with _ | d
  · have h : readFromDecompressed st want = (st, []) := by
      unfold readFromDecompressed
      rw [hdec]
    rw [h]
    exact ⟨by simp [davail, hdec], by simp [davail, hdec], hDOK, rfl, rfl, rfl, rfl, rfl⟩
  · have hdav : davail st = d.drop st.decompressedPos := by rw [davail, hdec]
    by_cases hn : 0 < min (d.length - st.decompressedPos) want
    · have htake : (d.drop st.decompressedPos).take (min (d.length - st.decompressedPos) want)
          = (davail st).take want := by
        rw [hdav]
        refine (List.take_eq_take).2 ?_
        rw [List.length_drop]
        omega
      by_cases hend : st.decompressedPos + min (d.length - st.decompressedPos) want = d.length
      · set stN : CInput := { st with decompressed := none, decompressedPos := st.decompressedPos + min (d.length - st.decompressedPos) want } with hstN
        have h : readFromDecompressed st want =
            (stN, (d.drop st.decompressedPos).take (min (d.length - st.decompressedPos) want)) := by
          unfold readFromDecompressed
          rw [hdec]
          dsimp only []
          rw [if_pos hn, if_pos hend]
        rw [h]
        refine ⟨htake, ?_, Or.inl rfl, rfl, rfl, rfl, rfl, rfl⟩
        show ([] : List Nat) = (davail st).drop want
        rw [hdav, List.drop_drop]
        exact (List.drop_eq_nil_of_le (by omega)).symm
      · set stN : CInput := { st with decompressedPos := st.decompressedPos + min (d.length - st.decompressedPos) want } with hstN
        have h : readFromDecompressed st want =
            (stN, (d.drop st.decompressedPos).take (min (d.length - st.decompressedPos) want)) := by
          unfold readFromDecompressed
          rw [hdec]
          dsimp only []
          rw [if_pos hn, if_neg hend]
          rw [hstN, hdec]
        rw [h]
        have hlt : st.decompressedPos + min (d.length - st.decompressedPos) want < d.length := by
          omega
        have hdecN : stN.decompressed = some d := hdec
        have hdavN : davail stN
            = d.drop (st.decompressedPos + min (d.length - st.decompressedPos) want) := by
          rw [davail, hdecN]
        refine ⟨htake, ?_, Or.inr ⟨d, hdecN, Or.inl hlt⟩, rfl, rfl, rfl, rfl, rfl⟩
        show davail stN = (davail st).drop want
        rw [hdavN, hdav, List.drop_drop]
        have hmin : min (d.length - st.decompressedPos) want = want := by omega
        rw [hmin, Nat.add_comm]
    · have h : readFromDecompressed st want = (st, []) := by
        unfold readFromDecompressed
        rw [hdec]
        dsimp only []
        rw [if_neg hn]
      rw [h]
      have hdrop : (davail st).take want = [] ∧ (davail st).drop want = davail st := by
        rw [hdav]
        constructor
        · rcases Nat.eq_zero_of_not_pos (by omega : ¬0 < min (d.length - st.decompressedPos) want)
            |> fun hmin => (Nat.min_eq_zero_iff.1 hmin) with h0 | h0
          · rw [List.take_eq_nil_iff.2]
            right
            rw [List.drop_eq_nil_of_le]
            omega
          · rw [h0]
            rfl
        · rcases (Nat.min_eq_zero_iff.1 (Nat.eq_zero_of_not_pos hn)) with h0 | h0
          · have hnil : d.drop st.decompressedPos = ([] : List Nat) :=
              List.drop_eq_nil_of_le (by omega)
            rw [hnil, List.drop_nil]
          · rw [h0]
            simp
      exact ⟨hdrop.1.symm, hdrop.2.symm, hDOK, rfl, rfl, rfl, rfl, rfl⟩

theorem readLoop_done (st : CInput) (want : Nat) (acc : List Nat) (f : Nat)
    (h : want - (readFromDecompressed st want).2.length = 0) :
    readLoop st want acc (f + 1) =
      (Status.ok, (readFromDecompressed st want).1,
        acc ++ (readFromDecompressed st want).2) := by
  conv_lhs => rw [readLoop]
  rw [if_pos h]

theorem readLoop_more (st : CInput) (want : Nat) (acc : List Nat) (f : Nat)
    (h : ¬want - (readFromDecompressed st want).2.length = 0) :
    readLoop st want acc (f + 1) =
      (match refill (readFromDecompressed st want).1 with
       | (Status.ok, st2, true) =>
         readLoop st2 (want - (readFromDecompressed st want).2.length)
           (acc ++ (readFromDecompressed st want).2) f
       | (Status.ok, st2, false) =>
         (Status.ok, st2, acc ++ (readFromDecompressed st want).2)
       | (e, st2, _) => (e, st2, acc ++ (readFromDecompressed st want).2)) := by
  conv_lhs => rw [readLoop]
  rw [if_neg h]

theorem readLoop_spec : ∀ (fuel : Nat) (st : CInput) (want : Nat) (acc rest : List Nat),
    Inv st rest → want + Phi st < fuel →
    ∃ st', readLoop st want acc fuel = (Status.ok, st', acc ++ rest.take want) := by
  intro fuel
  induction fuel with
  | zero => intro st want acc rest _ hf; omega
  | succ f ih =>
    intro st want acc rest hInv hf
    obtain ⟨q, hrest, hShape, hclen, hfin1, hfin2, hfresh, hDOK⟩ := hInv
    obtain ⟨hout, hdav2, hDOK2, hraw, hcomp, hcpos, hdecomp, hfr⟩ := readFrom_spec st want hDOK
    have hlen_out : (readFromDecompressed st want).2.length = min want (davail st).length := by
      rw [hout, List.length_take]
    by_cases hw : want - (readFromDecompressed st want).2.length = 0
    · -- the decompressed buffer served the whole request
      have hwle : want ≤ (davail st).length := by omega
      refine ⟨(readFromDecompressed st want).1, ?_⟩
      rw [readLoop_done st want acc f hw, hout, hrest,
        List.take_append_eq_append_take,
        Nat.sub_eq_zero_of_le hwle, List.take_zero, List.append_nil]
    · -- buffer drained, refill needed
      have hlt : (davail st).length < want := by omega
      have hout_all : (readFromDecompressed st want).2 = davail st := by
        rw [hout]
        exact List.take_of_length_le (Nat.le_of_lt hlt)
      have hdav_nil : davail (readFromDecompressed st want).1 = [] := by
        rw [hdav2]
        exact List.drop_eq_nil_of_le (Nat.le_of_lt hlt)
      have hD := drained_of_DOK _ hDOK2 hdav_nil
      have hcav : cavail (readFromDecompressed st want).1 = cavail st :=
        cavail_congr _ _ hcomp hcpos
      have hShape1 : Shape (readFromDecompressed st want).1.decomp
          (cavail (readFromDecompressed st want).1 ++ (readFromDecompressed st want).1.raw)
          q := by
        rw [hdecomp, hcav, hraw]
        exact hShape
      have hclen1 : (cavail (readFromDecompressed st want).1).length ≤ kChunkSize := by
        rw [hcav]
        exact hclen
      have hfin1A : cavail (readFromDecompressed st want).1 ≠ [] →
          (readFromDecompressed st want).1.decomp.finished = true := by
        rw [hcav, hdecomp]
        exact hfin1
      have hfin2A : (readFromDecompressed st want).1.decomp.finished = true →
          (readFromDecompressed st want).1.compressed.isSome = true := by
        rw [hdecomp, hcomp]
        exact hfin2
      have hfreshA : (readFromDecompressed st want).1.decomp = Decomp.init →
          cavail (readFromDecompressed st want).1 ++ (readFromDecompressed st want).1.raw = [] →
          (readFromDecompressed st want).1.fresh = true := by
        rw [hdecomp, hcav, hraw, hfr]
        exact hfresh
      have hPhiA : Phi (readFromDecompressed st want).1 = Phi st :=
        Phi_congr _ _ hcomp hcpos hraw hdecomp
      have hrt : rest.take want = davail st ++ q.take (want - (davail st).length) := by
        rw [hrest, List.take_append_eq_append_take,
          List.take_of_length_le (Nat.le_of_lt hlt)]
      rcases refill_spec (readFromDecompressed st want).1 q hShape1 hclen1 hfin1A hfin2A
          hfreshA hD with ⟨st2, hre, hInv2, hPhi2⟩ | ⟨st2, hre, hq⟩
      · -- more data became available: recurse
        have hfi : want - (readFromDecompressed st want).2.length + Phi st2 < f := by
          rw [hPhiA] at hPhi2
          omega
        obtain ⟨st', hrec⟩ := ih st2 (want - (readFromDecompressed st want).2.length)
          (acc ++ (readFromDecompressed st want).2) q hInv2 hfi
        refine ⟨st', ?_⟩
        rw [readLoop_more st want acc f hw, hre]
        show readLoop st2 (want - (readFromDecompressed st want).2.length)
          (acc ++ (readFromDecompressed st want).2) f = (Status.ok, st', acc ++ rest.take want)
        rw [hrec, hrt, hout_all, List.append_assoc]
      · -- clean end of stream: everything left was already delivered
        refine ⟨st2, ?_⟩
        rw [readLoop_more st want acc f hw, hre]
        show (Status.ok, st2, acc ++ (readFromDecompressed st want).2)
          = ((Status.ok : Status), st2, acc ++ rest.take want)
        rw [hout_all, hrt, hq, List.take_nil, List.append_nil]

theorem cread_spec (st : CInput) (nbytes : Nat) (rest : List Nat) (hInv : Inv st rest) :
    ∃ st', cread st nbytes = (Status.ok, st', rest.take nbytes) := by
  have hfuel : nbytes + Phi st < creadFuel st nbytes := by
    rw [creadFuel, Phi, compressedAvail_eq]
    split_ifs <;> omega
  obtain ⟨st1, hloop⟩ := readLoop_spec (creadFuel st nbytes) st nbytes [] rest hInv hfuel
  refine ⟨{ st1 with totalPos := st1.totalPos + (rest.take nbytes).length }, ?_⟩
  rw [cread, hloop]
  rfl

theorem Inv_init (r : List Nat) (fs : List (List Nat)) (hnef : NEF fs) :
    Inv (initIn (encodeFrame r ++ encodeFrames fs)) (r ++ fs.flatten) := by
  refine ⟨r ++ fs.flatten, rfl, ?_, Nat.zero_le _, ?_, ?_, ?_, Or.inl rfl⟩
  · refine Or.inr (Or.inl ⟨rfl, r, fs, hnef, ?_, rfl⟩)
    show ([] : List Nat) ++ (encodeFrame r ++ encodeFrames fs)
      = stuff r ++ 1 :: encodeFrames fs
    rw [List.nil_append, encodeFrame, List.append_assoc]
    rfl
  · intro h
    exact absurd rfl h
  · intro h
    exact Bool.noConfusion h
  · intro _ _
    rfl

/-- C1: writing any partition of a byte sequence through the
compressed output stream, closing it, and reading the produced raw
bytes back through a compressed input stream over the same codec
returns `Status.ok` with exactly the original byte sequence, for every
requested count at least its length. -/
theorem compressed_stream_roundtrip (parts : List (List Nat)) (k : Nat) :
    compressRoundTrip parts (parts.flatten.length + k) = (Status.ok, parts.flatten) := by
  obtain ⟨st', hw, st'', hc, hraw⟩ := writeAll_close_model parts
  have h0 := Inv_init parts.flatten [] (fun f hf => absurd hf (List.not_mem_nil f))
  have e1 : encodeFrames ([] : List (List Nat)) = [] := rfl
  have e2 : ([] : List (List Nat)).flatten = [] := rfl
  rw [e1, e2, List.append_nil, List.append_nil] at h0
  obtain ⟨stR, hr⟩ := cread_spec (initIn (encodeFrame parts.flatten))
    (parts.flatten.length + k) parts.flatten h0
  have htake : parts.flatten.take (parts.flatten.length + k) = parts.flatten :=
    List.take_of_length_le (by omega)
  rw [htake] at hr
  unfold compressRoundTrip
  rw [hw]
  show (match closeOut st' with
        | (Status.ok, st1) =>
          match cread (initIn st1.rawOut) (parts.flatten.length + k) with
          | (s, _, out) => (s, out)
        | (e, _) => (e, ([] : List Nat))) = (Status.ok, parts.flatten)
  rw [hc]
  show (match cread (initIn st''.rawOut) (parts.flatten.length + k) with
        | (s, _, out) => (s, out)) = (Status.ok, parts.flatten)
  rw [hraw, hr]

/-- C4: at the end of the raw stream the compressed input stream
distinguishes three situations.  (i) If the decompressor is not fresh
(it consumed input of the current frame without finishing it), hitting
the end of the raw and buffered data makes the refill step, and hence
`Read`, fail with `IOError "Truncated compressed stream"`; a concrete
mid-payload truncated stream exhibits it end to end.  (ii) On an
exhausted raw stream with a fresh decompressor, `Read` returns
normally with no bytes (clean end of stream).  (iii) When a frame
finishes mid-stream the decompressor is reset, so two back-to-back
frames are decoded transparently into the concatenation of their
payloads. -/
theorem compressed_input_eos_cases :
    (∀ st1 : CInput, st1.raw = [] → cavail st1 = [] → st1.fresh = false →
      (st1.decompressed = none ∨ st1.decompressed = some []) →
      (refillTail st1).1 = Status.ioError "Truncated compressed stream") ∧
    ((cread (initIn [0, 5]) 2).1 = Status.ioError "Truncated compressed stream") ∧
    (∀ n : Nat, (cread (initIn []) n).1 = Status.ok ∧
      (cread (initIn []) n).2.2 = []) ∧
    (∀ (b1 b2 : List Nat) (k : Nat), b2 ≠ [] →
      (cread (initIn (encodeFrame b1 ++ encodeFrame b2))
          (b1.length + b2.length + k)).1 = Status.ok ∧
      (cread (initIn (encodeFrame b1 ++ encodeFrame b2))
          (b1.length + b2.length + k)).2.2 = b1 ++ b2) := by
  refine ⟨?_, by decide, fun n => by cases n <;> exact ⟨rfl, rfl⟩, ?_⟩
  · intro st1 hraw hcav hfresh hD
    rw [refillTail_empty st1 hD]
    have hca0 : compressedAvail st1 = 0 := by
      rw [compressedAvail_eq, hcav]
      rfl
    have hens : ensureCompressedData st1 =
        { st1 with compressed := some (st1.raw.take kChunkSize),
                   raw := st1.raw.drop kChunkSize, compressedPos := 0 } := by
      unfold ensureCompressedData
      rw [if_pos hca0]
    rw [hens, hraw]
    simp [hfresh]
  intro b1 b2 k hne
  have hnef : NEF [b2] := by
    intro f hf
    rw [List.mem_singleton] at hf
    rw [hf]
    exact hne
  have h0 := Inv_init b1 [b2] hnef
  have e1 : encodeFrames [b2] = encodeFrame b2 := by
    show encodeFrame b2 ++ [] = encodeFrame b2
    exact List.append_nil _
  have e2 : ([b2] : List (List Nat)).flatten = b2 := by
    show b2 ++ [] = b2
    exact List.append_nil _
  rw [e1, e2] at h0
  obtain ⟨st', hr⟩ := cread_spec (initIn (encodeFrame b1 ++ encodeFrame b2))
    (b1.length + b2.length + k) (b1 ++ b2) h0
  have htake : (b1 ++ b2).take (b1.length + b2.length + k) = b1 ++ b2 :=
    List.take_of_length_le (by rw [List.length_append]; omega)
  rw [htake] at hr
  exact ⟨by rw [hr], by rw [hr]⟩

theorem compressed_input_eos_cases_witness :
    (({ initIn [] with fresh := false } : CInput).raw = [] ∧
      cavail { initIn [] with fresh := false } = [] ∧
      ({ initIn [] with fresh := false } : CInput).fresh = false ∧
      ({ initIn [] with fresh := false } : CInput).decompressed = none ∧
      (refillTail { initIn [] with fresh := false }).1
        = Status.ioError "Truncated compressed stream") ∧
    (([3] : List Nat) ≠ [] ∧
      (cread (initIn (encodeFrame [2] ++ encodeFrame [3]))
          (([2] : List Nat).length + ([3] : List Nat).length + 0)).1 = Status.ok ∧
      (cread (initIn (encodeFrame [2] ++ encodeFrame [3]))
          (([2] : List Nat).length + ([3] : List Nat).length + 0)).2.2 = [2] ++ [3]) :=
  ⟨⟨rfl, rfl, rfl, rfl,
    compressed_input_eos_cases.1 { initIn [] with fresh := false } rfl rfl rfl (Or.inl rfl)⟩,
   by decide, compressed_input_eos_cases.2.2.2 [2] [3] 0 (by decide)⟩

/-- C8: every iteration of the `CompressedOutputStream::Write` loop
makes forward progress for an arbitrary compressor call: either at
least one input byte is consumed, or the compressed buffer's capacity
is doubled (hence strictly grown); consequently, for the model codec
(which consumes input whenever given room), `Write` terminates with
`Status.ok` on every finite input. -/
theorem write_loop_progress_and_termination :
    (∀ (cf : List Nat → Nat → Nat × List Nat) (st : COutput) (input : List Nat),
      1 ≤ st.cap →
      1 ≤ (writeStep cf st input).1 ∨
        ((writeStep cf st input).2.cap = st.cap * 2 ∧
          st.cap < (writeStep cf st input).2.cap)) ∧
    (∀ (st : COutput) (input : List Nat),
      st.buf.length < st.cap → 2 ≤ st.cap →
      ∃ st', cwrite st input = (Status.ok, st')) := by
  constructor
  · intro cf st input hcap
    by_cases h : (writeStep cf st input).1 = 0
    · refine Or.inr ⟨?_, ?_⟩
      · rw [writeStep_cap, if_pos h]
      · rw [writeStep_cap, if_pos h]
        omega
    · exact Or.inl (by omega)
  · intro st input hb hc
    obtain ⟨st', h1, _⟩ := writeLoop_model input.length input st hb hc (Nat.le_refl _)
    exact ⟨st', h1⟩

theorem write_loop_progress_and_termination_witness :
    (1 ≤ initOut.cap ∧
      (1 ≤ (writeStep modelCompress initOut [5]).1 ∨
        ((writeStep modelCompress initOut [5]).2.cap = initOut.cap * 2 ∧
          initOut.cap < (writeStep modelCompress initOut [5]).2.cap))) ∧
    (initOut.buf.length < initOut.cap ∧ 2 ≤ initOut.cap ∧
      ∃ st', cwrite initOut [5] = (Status.ok, st')) :=
  ⟨⟨by decide, write_loop_progress_and_termination.1 modelCompress initOut [5] (by decide)⟩,
   ⟨by decide, by decide,
    write_loop_progress_and_termination.2 initOut [5] (by decide) (by decide)⟩⟩

end ArrowIO
